import Mathlib

/-!
# Storage and memory layer of the teaching kernel

A shallow embedding of `src/kernel/memory.c` (bump allocator), the string
helpers of `src/kernel/string.c` that the file table uses,
`src/filesystem/memfs.c` (flat file table) and the tokenizer of
`src/kernel/shell.c`, followed by theorems about them.

Modelling conventions

* A `char` is a natural number; `0` is the NUL terminator.
* A `const char *` argument is the list of bytes found from the pointer
  onwards.  Reading past the end of the list yields NUL, so every list denotes
  a NUL-terminated string: the bytes before its first `0`.
* A pointer into the arena is a natural number (an address); `0` is `NULL`.
* `size_t` arithmetic, the pointer addition inside `malloc` and the pointer
  increments of `memset` are taken modulo `2 ^ 64`.
* A pointer to a slot of the static array `files` is the index of the slot.
* The UART debug output of `memfs.c` does not touch the state and is left out.
-/

namespace MyOS

/-! ## Configuration constants (`memfs.h`) -/

/-- Number of slots of the file table. -/
def MAX_FILES : Nat := 32

/-- Size of the `name` array of a slot, terminator included. -/
def MAX_FILENAME_LEN : Nat := 64

/-- Largest content length accepted by `fs_write_file`. -/
def MAX_FILE_SIZE : Nat := 4096

/-- Modulus of `size_t` and of addresses on the 64-bit target. -/
def SIZE_MOD : Nat := 2 ^ 64

/-! ## String helpers (`string.c`) -/

/-- The string denoted by a byte buffer: the bytes before the first NUL. -/
def cstr : List Nat → List Nat
  | [] => []
  | c :: s => if c = 0 then [] else c :: cstr s

/-- Embedding of `strlen`: counts bytes until the first NUL. -/
def strlen : List Nat → Nat
  | [] => 0
  | c :: s => if c = 0 then 0 else strlen s + 1

/-- Embedding of `strcmp`: walks both strings while the bytes agree and the
first is not NUL, then returns the difference of the two current bytes. -/
def strcmp : List Nat → List Nat → Int
  | [], s2 => (0 : Int) - (s2.headD 0 : Nat)
  | c :: s1, s2 =>
    if c ≠ 0 ∧ c = s2.headD 0 then strcmp s1 s2.tail
    else (c : Int) - (s2.headD 0 : Nat)

/-- Embedding of `strncpy`: the `n` bytes it stores at `dst`, namely the bytes
of `src` up to its terminator (at most `n` of them), then NUL padding. -/
def strncpy (src : List Nat) : Nat → List Nat
  | 0 => []
  | n + 1 =>
    if src.headD 0 ≠ 0 then src.headD 0 :: strncpy src.tail n
    else List.replicate (n + 1) 0

/-- Embedding of `strcpy` into arena memory: stores the bytes of `src` from
address `dst` upwards, the terminator included. -/
def strcpy (mem : Nat → Nat) (dst : Nat) : List Nat → (Nat → Nat)
  | [] => Function.update mem dst 0
  | c :: src =>
    if c = 0 then Function.update mem dst 0
    else strcpy (Function.update mem dst c) (dst + 1) src

/-- The NUL-terminated string a caller sees through a pointer `p` into arena
memory, reading at most `fuel` bytes. -/
def load_cstr (mem : Nat → Nat) : Nat → Nat → List Nat
  | 0, _ => []
  | fuel + 1, p => if mem p = 0 then [] else mem p :: load_cstr mem fuel (p + 1)

/-- Embedding of `memset`: stores `(unsigned char)value` into the `num` bytes
from address `ptr` upwards, the pointer being incremented modulo `2 ^ 64`;
the result is the memory after the call. -/
def memset (mem : Nat → Nat) (ptr value : Nat) : Nat → (Nat → Nat)
  | 0 => mem
  | num + 1 =>
    memset (Function.update mem ptr (value % 256)) ((ptr + 1) % SIZE_MOD) value num

/-! ## Bump allocator (`memory.c`) -/

/-- The linker symbols `__heap_start` and `__heap_end` (addresses). -/
structure Arena where
  heap_start : Nat
  heap_end : Nat

/-- The two static variables of `memory.c`. -/
structure Heap where
  heap_current : Nat
  total_allocated : Nat

/-- Embedding of `memory_init`. -/
def memory_init (a : Arena) : Heap :=
  { heap_current := a.heap_start, total_allocated := 0 }

/-- The rounding `(size + 15) & ~15` on `size_t`. -/
def align16 (size : Nat) : Nat :=
  ((size + 15) % SIZE_MOD) &&& 0xFFFFFFFFFFFFFFF0

/-- Embedding of `malloc`: returns the pointer (`0` for `NULL`) and the new
allocator state. -/
def malloc (a : Arena) (h : Heap) (size : Nat) : Nat × Heap :=
  if size = 0 then (0, h)
  else
    let size := align16 size
    if (h.heap_current + size) % SIZE_MOD > a.heap_end then (0, h)
    else
      (h.heap_current,
        { heap_current := (h.heap_current + size) % SIZE_MOD,
          total_allocated := (h.total_allocated + size) % SIZE_MOD })

/-- Embedding of `free`: does nothing. -/
def free (h : Heap) (_ptr : Nat) : Heap := h

/-- Embedding of `calloc`.  The memory of the model is the arena: when the
`total` bytes that `memset` stores from the returned pointer on do not all
lie in the arena `[heap_start, heap_end)`, the call runs over the end of the
arena into static data and unmapped addresses and does not return, and the
result is `none`.  Otherwise the result is the returned pointer, the
allocator state and the memory after the call. -/
def calloc (a : Arena) (h : Heap) (mem : Nat → Nat) (num size : Nat) :
    Option (Nat × Heap × (Nat → Nat)) :=
  let total := (num * size) % SIZE_MOD
  let r := malloc a h total
  if r.1 ≠ 0 then
    if a.heap_start ≤ r.1 ∧ r.1 + total ≤ a.heap_end then
      some (r.1, r.2, memset mem r.1 0 total)
    else none
  else some (r.1, r.2, mem)

/-- Embedding of `get_allocated_memory`. -/
def get_allocated_memory (h : Heap) : Nat := h.total_allocated

/-! ## Flat file table (`memfs.c`) -/

/-- Embedding of `file_t`. -/
structure file_t where
  /-- The array `char name[MAX_FILENAME_LEN]`. -/
  name : List Nat
  /-- The pointer `char *content` (`0` for `NULL`). -/
  content : Nat
  size : Nat
  /-- The flag `int in_use` (only ever `0` or `1`). -/
  in_use : Bool

/-- Global state: the static array `files`, the allocator variables and the
bytes of memory. -/
structure State where
  files : Nat → file_t
  heap : Heap
  mem : Nat → Nat

/-- The loop `for (i = lo; i < lo + n; i++) if (p i) return &files[i];
return NULL;` shared by `find_file` and `find_free_slot`. -/
def scan (p : Nat → Bool) : Nat → Nat → Option Nat
  | 0, _ => none
  | n + 1, i => if p i then some i else scan p n (i + 1)

/-- Embedding of `fs_init` (applied to whatever the array held before). -/
def fs_init (files : Nat → file_t) : Nat → file_t :=
  fun i =>
    if i < MAX_FILES then
      { name := (files i).name.set 0 0, content := 0, size := 0, in_use := false }
    else files i

/-- Embedding of `find_file`. -/
def find_file (files : Nat → file_t) (filename : List Nat) : Option Nat :=
  scan (fun i => (files i).in_use && decide (strcmp (files i).name filename = 0)) MAX_FILES 0

/-- Embedding of `find_free_slot`. -/
def find_free_slot (files : Nat → file_t) : Option Nat :=
  scan (fun i => !(files i).in_use) MAX_FILES 0

/-- Embedding of `fs_write_file`.  `none` stands for a `NULL` argument.  The
result is the returned `int` and the state after the call.  The 64 bytes of
the `name` array of a new slot are the 63 bytes stored by `strncpy` followed
by the explicit terminator `name[MAX_FILENAME_LEN - 1] = 0`. -/
def fs_write_file (a : Arena) (s : State) (filename content : Option (List Nat)) :
    Int × State :=
  match filename with
  | none => (-1, s)
  | some filename =>
    if filename.headD 0 = 0 then (-1, s)
    else if strlen filename ≥ MAX_FILENAME_LEN then (-1, s)
    else
      let content_len := match content with
        | some c => strlen c
        | none => 0
      if content_len > MAX_FILE_SIZE then (-1, s)
      else
        let staged : Option (Nat × (Nat → file_t)) :=
          match find_file s.files filename with
          | some i => some (i, s.files)
          | none =>
            match find_free_slot s.files with
            | none => none
            | some i =>
              some (i, Function.update s.files i
                { s.files i with
                  name := strncpy filename (MAX_FILENAME_LEN - 1) ++ [0],
                  in_use := true })
        match staged with
        | none => (-1, s)
        | some (i, files) =>
          if content_len > 0 then
            let r := malloc a s.heap (content_len + 1)
            if r.1 = 0 then
              (-1, { s with
                files := Function.update files i
                  { files i with content := 0, in_use := false },
                heap := r.2 })
            else
              (0, { files := Function.update files i
                      { files i with content := r.1, size := content_len },
                    heap := r.2,
                    mem := strcpy s.mem r.1 (content.getD []) })
          else
            (0, { s with
              files := Function.update files i
                { files i with content := 0, size := content_len } })

/-- Embedding of `fs_read_file`: the returned pointer (`0` for `NULL`). -/
def fs_read_file (s : State) (filename : List Nat) : Nat :=
  match find_file s.files filename with
  | none => 0
  | some i => (s.files i).content

/-- Embedding of `fs_delete_file`. -/
def fs_delete_file (s : State) (filename : List Nat) : Int × State :=
  match find_file s.files filename with
  | none => (-1, s)
  | some i =>
    (0, { s with
      files := Function.update s.files i
        { name := (s.files i).name.set 0 0, content := 0, size := 0, in_use := false } })

/-- Embedding of `fs_list_files`: the sequence of callback invocations. -/
def fs_list_files (s : State) : List (List Nat × Nat) :=
  ((List.range MAX_FILES).filter (fun i => (s.files i).in_use)).map
    (fun i => ((s.files i).name, (s.files i).size))

/-- Embedding of `fs_file_exists`. -/
def fs_file_exists (s : State) (filename : List Nat) : Int :=
  if (find_file s.files filename).isSome then 1 else 0

/-- Embedding of `fs_get_file_count`. -/
def fs_get_file_count (s : State) : Int :=
  ((List.range MAX_FILES).countP (fun i => (s.files i).in_use) : Nat)

/-- The content a caller sees through the pointer returned by `fs_read_file`;
a stored content has at most `MAX_FILE_SIZE` bytes before its terminator. -/
def string_at (s : State) (p : Nat) : List Nat :=
  load_cstr s.mem (MAX_FILE_SIZE + 1) p

/-! ## Command tokenizer (`shell.c`) -/

/-- The constant `MAX_ARGS` of `shell.h`. -/
def MAX_ARGS : Nat := 16

/-- The test `c == ' ' || c == '\t'`. -/
def is_blank (c : Nat) : Bool := c == 32 || c == 9

/-- The loop `while (*p == ' ' || *p == '\t') p++;`.  The command buffer is
split at the pointer `p`: the first list holds the bytes before `p`, nearest
first, the second list the bytes from `p` onwards.  The result is the split
at the new `p`. -/
def skip_blanks : List Nat → List Nat → List Nat × List Nat
  | pre, [] => (pre, [])
  | pre, c :: rest => if is_blank c then skip_blanks (c :: pre) rest else (pre, c :: rest)

/-- The loop `while (*p != '\0' && *p != ' ' && *p != '\t') p++;` on the
buffer split at `p`. -/
def skip_token : List Nat → List Nat → List Nat × List Nat
  | pre, [] => (pre, [])
  | pre, c :: rest =>
    if c ≠ 0 ∧ is_blank c = false then skip_token (c :: pre) rest else (pre, c :: rest)

/-- The main loop of `parse_command`, at most `fuel` iterations: while
`*p != '\0' && argc < MAX_ARGS`, record `p` (as an offset into the buffer) in
`argv`, move to the end of the argument, and if that is not the terminator
overwrite it with NUL, step over it and skip blanks.  The result is `argv`
and the buffer split at the final `p`. -/
def parse_loop : Nat → List Nat → List Nat → List Nat → List Nat × List Nat × List Nat
  | 0, pre, rest, argv => (argv, pre, rest)
  | fuel + 1, pre, rest, argv =>
    if rest.headD 0 ≠ 0 ∧ argv.length < MAX_ARGS then
      let t := skip_token pre rest
      if t.2.headD 0 ≠ 0 then
        let b := skip_blanks (0 :: t.1) t.2.tail
        parse_loop fuel b.1 b.2 (argv ++ [pre.length])
      else
        parse_loop fuel t.1 t.2 (argv ++ [pre.length])
    else (argv, pre, rest)

/-- Embedding of `parse_command`: the returned `argc`, the offsets into the
buffer stored in `argv[0 .. argc-1]`, and the buffer after the call.  Every
iteration of the main loop consumes at least one byte, so `cmd.length + 1`
iterations are never used up. -/
def parse_command (cmd : List Nat) : Nat × List Nat × List Nat :=
  let b := skip_blanks [] cmd
  let r := parse_loop (cmd.length + 1) b.1 b.2 []
  (r.1.length, r.1, r.2.1.reverse ++ r.2.2)

/-- The strings that `argv[0]`, `argv[1]`, ... point to after the call. -/
def parsed_args (cmd : List Nat) : List (List Nat) :=
  (parse_command cmd).2.1.map (fun off => cstr ((parse_command cmd).2.2.drop off))

/-- The maximal runs of non-space, non-tab characters of a sequence of
characters, from left to right: the sequence is split at every space and tab
and the empty pieces are dropped. -/
def runs_of (s : List Nat) : List (List Nat) :=
  (s.splitOnP is_blank).filter (fun w => !w.isEmpty)

/-- The maximal runs of non-space, non-tab characters of a NUL-terminated
command line. -/
def maximal_runs (line : List Nat) : List (List Nat) :=
  runs_of (cstr line)

/-! ## Specification vocabulary -/

/-- The string stored at `p` has exactly `n` bytes before its terminator. -/
def StringAt (mem : Nat → Nat) (p n : Nat) : Prop :=
  (∀ k, k < n → mem (p + k) ≠ 0) ∧ mem (p + n) = 0

/-- The length `content_len` computed by `fs_write_file` (`0` for `NULL`). -/
def content_len (content : Option (List Nat)) : Nat :=
  match content with
  | some c => strlen c
  | none => 0

/-- The first half of the body of `fs_write_file` after validation (lookup,
slot choice and staging): the chosen slot and the table after staging. -/
def stage (s : State) (filename : List Nat) : Option (Nat × (Nat → file_t)) :=
  match find_file s.files filename with
  | some i => some (i, s.files)
  | none =>
    match find_free_slot s.files with
    | none => none
    | some i =>
      some (i, Function.update s.files i
        { s.files i with
          name := strncpy filename (MAX_FILENAME_LEN - 1) ++ [0],
          in_use := true })

/-- The second half of the body of `fs_write_file` (buffer acquisition, copy
and commit) on the staged slot `i`. -/
def commit (a : Arena) (s : State) (i : Nat) (files : Nat → file_t)
    (content : Option (List Nat)) : Int × State :=
  if content_len content > 0 then
    let r := malloc a s.heap (content_len content + 1)
    if r.1 = 0 then
      (-1, { s with
        files := Function.update files i { files i with content := 0, in_use := false },
        heap := r.2 })
    else
      (0, { files := Function.update files i
              { files i with content := r.1, size := content_len content },
            heap := r.2,
            mem := strcpy s.mem r.1 (content.getD []) })
  else
    (0, { s with
      files := Function.update files i
        { files i with content := 0, size := content_len content } })

/-- What slot `f` must satisfy when occupied, relative to the allocator
cursor `cur` and the memory `mem`: a non-empty name that fits the array, and
either no buffer and size `0`, or a buffer inside the vended part of the arena
holding a string of exactly `size` bytes. -/
def SlotOk (a : Arena) (cur : Nat) (mem : Nat → Nat) (f : file_t) : Prop :=
  cstr f.name ≠ [] ∧ strlen f.name < MAX_FILENAME_LEN ∧
  ((f.content = 0 ∧ f.size = 0) ∨
   (f.content ≠ 0 ∧ 0 < f.size ∧ f.size ≤ MAX_FILE_SIZE ∧ a.heap_start ≤ f.content ∧
      f.content + f.size + 1 ≤ cur ∧ StringAt mem f.content f.size))

/-- Invariant of the reachable states. -/
structure Inv (a : Arena) (s : State) : Prop where
  heap_lo : a.heap_start ≤ s.heap.heap_current
  heap_hi : s.heap.heap_current ≤ a.heap_end
  total : a.heap_start + s.heap.total_allocated = s.heap.heap_current
  unique : ∀ i j, i < MAX_FILES → j < MAX_FILES → (s.files i).in_use = true →
    (s.files j).in_use = true → cstr (s.files i).name = cstr (s.files j).name → i = j
  slot_ok : ∀ i, i < MAX_FILES → (s.files i).in_use = true →
    SlotOk a s.heap.heap_current s.mem (s.files i)

/-! ## Concrete configurations used in examples -/

/-- An arena of 4096 bytes. -/
def demo_arena : Arena := { heap_start := 4096, heap_end := 8192 }

/-- An arena of 16 bytes, which a single file buffer exhausts. -/
def tiny_arena : Arena := { heap_start := 4096, heap_end := 4112 }

/-- The zero-initialised static array `files` before `fs_init` runs. -/
def boot_files : Nat → file_t :=
  fun _ => { name := List.replicate 64 0, content := 0, size := 0, in_use := false }

/-- The state right after `memory_init` and `fs_init`, on zeroed memory. -/
def boot_state (a : Arena) : State :=
  { files := fs_init boot_files, heap := memory_init a, mem := fun _ => 0 }

/-- The state after boot on the 16-byte arena followed by the successful
`fs_write_file("a", "x")`, which uses up the whole arena. -/
def tiny_one_file : State :=
  (fs_write_file tiny_arena (boot_state tiny_arena) (some [97]) (some [120])).2

/-- The name "f<i>" for `i < 100`. -/
def fname (i : Nat) : List Nat :=
  if i < 10 then [102, 48 + i] else [102, 48 + i / 10, 48 + i % 10]

/-- The state after writing the files "f0" .. "f<n-1>", each with the
one-byte content "x", starting from `s`, on the 4096-byte arena. -/
def fill : Nat → State → State
  | 0, s => s
  | n + 1, s => (fs_write_file demo_arena (fill n s) (some (fname n)) (some [120])).2

/-- The table filled with "f0" .. "f31" after boot. -/
def full_state : State := fill 32 (boot_state demo_arena)

/-- The state after boot followed by `fs_write_file("a", "")`. -/
def empty_file_state : State :=
  (fs_write_file demo_arena (boot_state demo_arena) (some [97]) (some [])).2

/-- The state after boot followed by `fs_write_file("a.txt", "hi")`. -/
def hi_state : State :=
  (fs_write_file demo_arena (boot_state demo_arena) (some [97, 46, 116, 120, 116])
    (some [104, 105])).2

/-- The names that exist in a state: the NUL-free strings for which
`fs_file_exists` returns 1. -/
def existing_names (s : State) : Set (List Nat) :=
  { n | (∀ c ∈ n, c ≠ 0) ∧ fs_file_exists s n = 1 }

/-- The state after boot followed by the writes of "a", "b" and "c", each with
content "x". -/
def abc_state : State :=
  (fs_write_file demo_arena
    (fs_write_file demo_arena
      (fs_write_file demo_arena (boot_state demo_arena) (some [97]) (some [120])).2
      (some [98]) (some [120])).2
    (some [99]) (some [120])).2

/-- The command line "  ls  -l<TAB>foo " (two leading spaces, a tab before
"foo", one trailing space). -/
def ls_line : List Nat := [32, 32, 108, 115, 32, 32, 45, 108, 9, 102, 111, 111, 32]

/-- A command line of 19 one-letter words "a b c ... s". -/
def long_line : List Nat :=
  [97, 32, 98, 32, 99, 32, 100, 32, 101, 32, 102, 32, 103, 32, 104, 32, 105, 32, 106, 32,
   107, 32, 108, 32, 109, 32, 110, 32, 111, 32, 112, 32, 113, 32, 114, 32, 115]

/-! ## Reachable states -/

/-- The arena lies in the address space the way the linker script places it:
its start is not the null address and it ends at least one maximal file
buffer below the top of the 64-bit address space, so the pointer addition of
`malloc` does not wrap for the requests of the file table. -/
def Arena.WF (a : Arena) : Prop :=
  0 < a.heap_start ∧ a.heap_start ≤ a.heap_end ∧ a.heap_end + 4112 < SIZE_MOD

instance (a : Arena) : Decidable a.WF := by
  unfold Arena.WF; infer_instance

/-- States reachable from `memory_init` and `fs_init` by calls of
`fs_write_file` and `fs_delete_file`, successful or not. -/
inductive Reachable (a : Arena) : State → Prop
  | init (files0 : Nat → file_t) (mem0 : Nat → Nat) :
      Reachable a { files := fs_init files0, heap := memory_init a, mem := mem0 }
  | write (s : State) (filename content : Option (List Nat)) :
      Reachable a s → Reachable a (fs_write_file a s filename content).2
  | delete (s : State) (filename : List Nat) :
      Reachable a s → Reachable a (fs_delete_file s filename).2

/-! ## Lemmas about the string helpers and the scans -/

theorem scan_eq_none (p : Nat → Bool) (n i : Nat) :
    scan p n i = none ↔ ∀ j, i ≤ j → j < i + n → p j = false := by
  induction n generalizing i with
  | zero => simp [scan]; intro j h1 h2; omega
  | succ n ih =>
    simp only [scan]
    by_cases hp : p i = true
    · simp only [hp, if_true]
      constructor
      · intro h; cases h
      · intro h; have := h i (le_refl _) (by omega); simp [hp] at this
    · simp only [hp]
      rw [if_neg (by simp), ih]
      constructor
      · intro h j h1 h2
        by_cases hj : j = i
        · subst hj; simpa using hp
        · exact h j (by omega) (by omega)
      · intro h j h1 h2
        exact h j (by omega) (by omega)

theorem scan_eq_some (p : Nat → Bool) (n i k : Nat) :
    scan p n i = some k ↔
      i ≤ k ∧ k < i + n ∧ p k = true ∧ ∀ j, i ≤ j → j < k → p j = false := by
  induction n generalizing i with
  | zero => simp [scan]; intro h1 h2; omega
  | succ n ih =>
    simp only [scan]
    by_cases hp : p i = true
    · simp only [hp, if_true, Option.some.injEq]
      constructor
      · rintro rfl
        exact ⟨le_refl _, by omega, hp, fun j h1 h2 => by omega⟩
      · rintro ⟨h1, _, _, h4⟩
        by_contra hne
        have := h4 i (le_refl _) (by omega)
        simp [hp] at this
    · rw [if_neg hp, ih]
      constructor
      · rintro ⟨h1, h2, h3, h4⟩
        refine ⟨by omega, by omega, h3, fun j hj1 hj2 => ?_⟩
        by_cases hj : j = i
        · subst hj; simpa using hp
        · exact h4 j (by omega) hj2
      · rintro ⟨h1, h2, h3, h4⟩
        have hik : i ≠ k := by rintro rfl; exact hp h3
        exact ⟨by omega, by omega, h3, fun j hj1 hj2 => h4 j (by omega) hj2⟩

theorem strlen_eq_length_cstr (s : List Nat) : strlen s = (cstr s).length := by
  induction s with
  | nil => rfl
  | cons c s ih => by_cases h : c = 0 <;> simp [strlen, cstr, h, ih]

theorem cstr_nul_free (s : List Nat) : ∀ c ∈ cstr s, c ≠ 0 := by
  induction s with
  | nil => simp [cstr]
  | cons c s ih =>
    by_cases h : c = 0
    · simp [cstr, h]
    · simp only [cstr, h, if_false, List.mem_cons]
      rintro d (rfl | hd)
      · exact h
      · exact ih d hd

theorem cstr_of_nul_free (s : List Nat) (h : ∀ c ∈ s, c ≠ 0) : cstr s = s := by
  induction s with
  | nil => rfl
  | cons c s ih =>
    have hc : c ≠ 0 := h c (by simp)
    simp only [cstr, hc, if_false]
    rw [ih (fun d hd => h d (by simp [hd]))]

theorem cstr_idem (s : List Nat) : cstr (cstr s) = cstr s :=
  cstr_of_nul_free _ (cstr_nul_free s)

theorem headD_eq_zero_iff (s : List Nat) : s.headD 0 = 0 ↔ cstr s = [] := by
  cases s with
  | nil => simp [cstr]
  | cons c s => by_cases h : c = 0 <;> simp [cstr, h]

theorem strcmp_eq_zero_iff (s1 s2 : List Nat) : strcmp s1 s2 = 0 ↔ cstr s1 = cstr s2 := by
  induction s1 generalizing s2 with
  | nil =>
    cases s2 with
    | nil => simp [strcmp, cstr]
    | cons d s2 =>
      by_cases hd : d = 0
      · simp [strcmp, cstr, hd]
      · simp [strcmp, cstr, hd]
  | cons c s1 ih =>
    cases s2 with
    | nil =>
      by_cases hc : c = 0
      · simp [strcmp, cstr, hc]
      · simp [strcmp, cstr, hc]
    | cons d s2 =>
      by_cases hc : c = 0
      · subst hc
        by_cases hd : d = 0
        · simp [strcmp, cstr, hd]
        · simp [strcmp, cstr, hd]
      · by_cases hcd : c = d
        · subst hcd
          simp [strcmp, cstr, hc, ih]
        · have hne : (c : Int) - (d : Int) ≠ 0 := by omega
          by_cases hd : d = 0
          · simp [strcmp, cstr, hc, hcd, hd]
          · simp [strcmp, cstr, hc, hcd, hd, hne]

theorem cstr_strncpy (src : List Nat) (n : Nat) (h : strlen src ≤ n) :
    cstr (strncpy src n ++ [0]) = cstr src := by
  induction n generalizing src with
  | zero =>
    cases src with
    | nil => simp [strncpy, cstr]
    | cons c s =>
      by_cases hc : c = 0
      · simp [strncpy, cstr, hc]
      · simp [strlen, hc] at h
  | succ n ih =>
    cases src with
    | nil => simp [strncpy, cstr, List.replicate_succ]
    | cons c s =>
      by_cases hc : c = 0
      · simp [strncpy, cstr, hc, List.replicate_succ]
      · simp only [strlen, hc, if_false] at h
        simp [strncpy, cstr, hc, ih s (by omega)]

/-! ## The allocator on file-table requests -/

theorem mask_testBit (i : Nat) :
    Nat.testBit 0xFFFFFFFFFFFFFFF0 i = (decide (4 ≤ i) && decide (i < 64)) := by
  by_cases h : i < 64
  · interval_cases i <;> rfl
  · have : (0xFFFFFFFFFFFFFFF0 : Nat) < 2 ^ i :=
      lt_of_lt_of_le (by norm_num) (Nat.pow_le_pow_right (by norm_num) (not_lt.mp h))
    rw [Nat.testBit_lt_two_pow this]
    simp [h]

theorem land_mask_eq (x : Nat) (hx : x < 2 ^ 64) :
    x &&& 0xFFFFFFFFFFFFFFF0 = x / 16 * 16 := by
  apply Nat.eq_of_testBit_eq
  intro i
  rw [Nat.testBit_and, mask_testBit]
  have h16 : x / 16 * 16 = 2 ^ 4 * (x / 2 ^ 4) := by norm_num [Nat.mul_comm]
  rw [h16, Nat.testBit_mul_pow_two, ← Nat.shiftRight_eq_div_pow, Nat.testBit_shiftRight]
  by_cases h4 : 4 ≤ i
  · by_cases h64 : i < 64
    · simp [h4, h64, Nat.add_sub_cancel' h4]
    · have : x < 2 ^ i := lt_of_lt_of_le hx (Nat.pow_le_pow_right (by norm_num) (not_lt.mp h64))
      simp [h4, h64, Nat.testBit_lt_two_pow this, Nat.add_sub_cancel' h4]
  · simp [h4]

theorem align16_eq (size : Nat) : align16 size = (size + 15) % 2 ^ 64 / 16 * 16 := by
  unfold align16 SIZE_MOD
  exact land_mask_eq _ (Nat.mod_lt _ (by norm_num))

theorem align16_small (size : Nat) (h : size ≤ 4097) :
    align16 size = (size + 15) / 16 * 16 := by
  rw [align16_eq, Nat.mod_eq_of_lt (by omega)]

/-! ## Strings in arena memory -/

theorem strcpy_outside (mem : Nat → Nat) (dst : Nat) (src : List Nat) (q : Nat)
    (h : q < dst ∨ dst + strlen src < q) : strcpy mem dst src q = mem q := by
  induction src generalizing mem dst with
  | nil =>
    simp only [strlen] at h
    simp only [strcpy]
    exact Function.update_noteq (by omega) _ _
  | cons c src ih =>
    by_cases hc : c = 0
    · simp only [strlen, hc, if_true] at h
      simp only [strcpy, hc, if_true]
      exact Function.update_noteq (by omega) _ _
    · simp only [strlen, hc, if_false] at h
      simp only [strcpy, hc, if_false]
      rw [ih _ _ (by omega)]
      exact Function.update_noteq (by omega) _ _

theorem load_cstr_strcpy (mem : Nat → Nat) (dst : Nat) (src : List Nat) (fuel : Nat)
    (h : strlen src < fuel) : load_cstr (strcpy mem dst src) fuel dst = cstr src := by
  induction src generalizing mem dst fuel with
  | nil =>
    cases fuel with
    | zero => simp [strlen] at h
    | succ fuel => simp [load_cstr, strcpy, cstr]
  | cons c src ih =>
    cases fuel with
    | zero => omega
    | succ fuel =>
      by_cases hc : c = 0
      · simp [load_cstr, strcpy, cstr, hc]
      · simp only [strlen, hc, if_false] at h
        have hat : strcpy (Function.update mem dst c) (dst + 1) src dst = c := by
          rw [strcpy_outside _ _ _ _ (Or.inl (by omega))]
          exact Function.update_same _ _ _
        simp only [load_cstr, strcpy, cstr, hc, if_false, hat]
        rw [ih _ _ _ (by omega)]

theorem load_cstr_congr (mem mem2 : Nat → Nat) (fuel p n : Nat)
    (hagree : ∀ k, k ≤ n → mem2 (p + k) = mem (p + k)) (hnul : mem (p + n) = 0) :
    load_cstr mem2 fuel p = load_cstr mem fuel p := by
  induction fuel generalizing p n with
  | zero => rfl
  | succ fuel ih =>
    have h0 : mem2 p = mem p := by simpa using hagree 0 (Nat.zero_le _)
    simp only [load_cstr, h0]
    by_cases hz : mem p = 0
    · simp [hz]
    · simp only [hz, if_false]
      cases n with
      | zero => exact absurd (by simpa using hnul) hz
      | succ n =>
        rw [ih (p + 1) n (fun k hk => by
          have := hagree (k + 1) (by omega)
          simpa [Nat.add_assoc, Nat.add_comm 1 k] using this) (by
          simpa [Nat.add_assoc, Nat.add_comm 1 n] using hnul)]

theorem load_cstr_length (mem : Nat → Nat) (fuel p n : Nat) (h : StringAt mem p n)
    (hf : n < fuel) : (load_cstr mem fuel p).length = n := by
  induction fuel generalizing p n with
  | zero => omega
  | succ fuel ih =>
    cases n with
    | zero =>
      have : mem p = 0 := by simpa using h.2
      simp [load_cstr, this]
    | succ n =>
      have hne : mem p ≠ 0 := by simpa using h.1 0 (by omega)
      simp only [load_cstr, hne, if_false, List.length_cons]
      rw [ih (p + 1) n ⟨fun k hk => by
        have := h.1 (k + 1) (by omega)
        simpa [Nat.add_assoc, Nat.add_comm 1 k] using this, by
        simpa [Nat.add_assoc, Nat.add_comm 1 n] using h.2⟩ (by omega)]

theorem strcpy_stringAt (mem : Nat → Nat) (dst : Nat) (src : List Nat) :
    StringAt (strcpy mem dst src) dst (strlen src) := by
  induction src generalizing mem dst with
  | nil => simp [StringAt, strcpy, strlen]
  | cons c src ih =>
    by_cases hc : c = 0
    · subst hc
      simp [StringAt, strcpy, strlen]
    · simp only [strcpy, strlen, hc, if_false]
      have hih := ih (Function.update mem dst c) (dst + 1)
      constructor
      · intro k hk
        cases k with
        | zero =>
          rw [strcpy_outside _ _ _ _ (Or.inl (by omega))]
          simpa using hc
        | succ k =>
          have := hih.1 k (by omega)
          simpa [Nat.add_assoc, Nat.add_comm 1 k] using this
      · have := hih.2
        simpa [Nat.add_assoc, Nat.add_comm 1 (strlen src)] using this

/-! ## Case analysis of `fs_write_file` -/

theorem fs_write_file_eq (a : Arena) (s : State) (filename : List Nat)
    (content : Option (List Nat)) :
    fs_write_file a s (some filename) content =
      if filename.headD 0 = 0 ∨ MAX_FILENAME_LEN ≤ strlen filename ∨
          MAX_FILE_SIZE < content_len content then (-1, s)
      else match stage s filename with
        | none => (-1, s)
        | some (i, files) => commit a s i files content := by
  by_cases h1 : filename.headD 0 = 0
  · rw [if_pos (Or.inl h1)]
    unfold fs_write_file
    dsimp only
    rw [if_pos h1]
  by_cases h2 : MAX_FILENAME_LEN ≤ strlen filename
  · rw [if_pos (Or.inr (Or.inl h2))]
    unfold fs_write_file
    dsimp only
    rw [if_neg h1, if_pos h2]
  by_cases h3 : MAX_FILE_SIZE < content_len content
  · rw [if_pos (Or.inr (Or.inr h3))]
    unfold fs_write_file
    dsimp only
    rw [if_neg h1, if_neg h2]
    exact if_pos h3
  · rw [if_neg (by tauto)]
    unfold fs_write_file
    dsimp only
    rw [if_neg h1, if_neg h2]
    exact (if_neg h3).trans rfl

theorem find_file_eq_some (files : Nat → file_t) (filename : List Nat) (i : Nat) :
    find_file files filename = some i ↔
      i < MAX_FILES ∧ (files i).in_use = true ∧ cstr (files i).name = cstr filename ∧
      ∀ j, j < i → ¬((files j).in_use = true ∧ cstr (files j).name = cstr filename) := by
  unfold find_file
  rw [scan_eq_some]
  simp only [Nat.zero_le, true_and, Nat.zero_add, Bool.and_eq_true, decide_eq_true_eq,
    strcmp_eq_zero_iff, Bool.and_eq_false_imp, decide_eq_false_iff_not, not_and]
  tauto

theorem find_file_eq_none (files : Nat → file_t) (filename : List Nat) :
    find_file files filename = none ↔
      ∀ j, j < MAX_FILES → (files j).in_use = true → cstr (files j).name ≠ cstr filename := by
  unfold find_file
  rw [scan_eq_none]
  simp only [Nat.zero_le, true_implies, Nat.zero_add, Bool.and_eq_false_imp,
    decide_eq_false_iff_not, strcmp_eq_zero_iff, ne_eq]

theorem find_free_slot_eq_some (files : Nat → file_t) (i : Nat) :
    find_free_slot files = some i ↔
      i < MAX_FILES ∧ (files i).in_use = false ∧ ∀ j, j < i → (files j).in_use = true := by
  unfold find_free_slot
  rw [scan_eq_some]
  simp

theorem find_free_slot_eq_none (files : Nat → file_t) :
    find_free_slot files = none ↔ ∀ j, j < MAX_FILES → (files j).in_use = true := by
  unfold find_free_slot
  rw [scan_eq_none]
  simp

theorem stage_cases (s : State) (filename : List Nat) :
    (find_file s.files filename = none ∧ find_free_slot s.files = none ∧
        stage s filename = none) ∨
    (∃ i, find_file s.files filename = some i ∧ stage s filename = some (i, s.files)) ∨
    (∃ i, find_file s.files filename = none ∧ find_free_slot s.files = some i ∧
        stage s filename = some (i, Function.update s.files i
          { s.files i with
            name := strncpy filename (MAX_FILENAME_LEN - 1) ++ [0], in_use := true })) := by
  unfold stage
  cases hf : find_file s.files filename with
  | some i => exact Or.inr (Or.inl ⟨i, rfl, rfl⟩)
  | none =>
    cases hs : find_free_slot s.files with
    | none => exact Or.inl ⟨rfl, rfl, rfl⟩
    | some i => exact Or.inr (Or.inr ⟨i, rfl, rfl, rfl⟩)

theorem commit_cases (a : Arena) (s : State) (i : Nat) (files : Nat → file_t)
    (content : Option (List Nat)) :
    (content_len content = 0 ∧
      commit a s i files content =
        (0, { s with files := Function.update files i { files i with content := 0, size := 0 } })) ∨
    (0 < content_len content ∧ (malloc a s.heap (content_len content + 1)).1 = 0 ∧
      commit a s i files content =
        (-1, { s with
          files := Function.update files i { files i with content := 0, in_use := false },
          heap := (malloc a s.heap (content_len content + 1)).2 })) ∨
    (0 < content_len content ∧ (malloc a s.heap (content_len content + 1)).1 ≠ 0 ∧
      commit a s i files content =
        (0, { files := Function.update files i
                { files i with
                  content := (malloc a s.heap (content_len content + 1)).1,
                  size := content_len content },
              heap := (malloc a s.heap (content_len content + 1)).2,
              mem := strcpy s.mem (malloc a s.heap (content_len content + 1)).1
                (content.getD []) })) := by
  unfold commit
  by_cases h0 : content_len content = 0
  · left
    refine ⟨h0, ?_⟩
    rw [if_neg (by omega), h0]
  · right
    have hpos : 0 < content_len content := by omega
    rw [if_pos hpos]
    by_cases hm : (malloc a s.heap (content_len content + 1)).1 = 0
    · left
      exact ⟨hpos, hm, by simp only [hm, if_true]⟩
    · right
      exact ⟨hpos, hm, by simp only [hm, if_false]⟩

/-- The rounded request of a file of `n` content bytes. -/
theorem align16_content (n : Nat) (h : n ≤ MAX_FILE_SIZE) :
    align16 (n + 1) = (n + 16) / 16 * 16 ∧ n + 1 ≤ align16 (n + 1) ∧
      align16 (n + 1) ≤ 4112 := by
  unfold MAX_FILE_SIZE at h
  rw [align16_small _ (by omega)]
  refine ⟨rfl, ?_, ?_⟩ <;> omega

theorem malloc_content (a : Arena) (h : Heap) (n : Nat) (ha : a.WF)
    (hhi : h.heap_current ≤ a.heap_end)
    (hn : n ≤ MAX_FILE_SIZE) :
    (a.heap_end < h.heap_current + (n + 16) / 16 * 16 ∧ malloc a h (n + 1) = (0, h)) ∨
    (h.heap_current + (n + 16) / 16 * 16 ≤ a.heap_end ∧
      malloc a h (n + 1) =
        (h.heap_current,
          { heap_current := h.heap_current + (n + 16) / 16 * 16,
            total_allocated := (h.total_allocated + (n + 16) / 16 * 16) % SIZE_MOD })) := by
  obtain ⟨h1, h2, h3⟩ := align16_content n hn
  obtain ⟨w1, w2, w3⟩ := ha
  have hmod : (h.heap_current + align16 (n + 1)) % SIZE_MOD = h.heap_current + align16 (n + 1) :=
    Nat.mod_eq_of_lt (by omega)
  unfold malloc
  simp only [Nat.succ_ne_zero, if_false, hmod]
  rw [h1] at *
  by_cases hroom : a.heap_end < h.heap_current + (n + 16) / 16 * 16
  · left; exact ⟨hroom, by rw [if_pos hroom]⟩
  · right; exact ⟨by omega, by rw [if_neg hroom]⟩

/-! ## The invariant holds in every reachable state -/

theorem stringAt_frame (mem mem2 : Nat → Nat) (p n cur : Nat) (h : StringAt mem p n)
    (hb : p + n + 1 ≤ cur) (hframe : ∀ q, q < cur → mem2 q = mem q) : StringAt mem2 p n := by
  constructor
  · intro k hk
    rw [hframe _ (by omega)]
    exact h.1 k hk
  · rw [hframe _ (by omega)]
    exact h.2

theorem slotOk_frame (a : Arena) (cur cur2 : Nat) (mem mem2 : Nat → Nat) (f : file_t)
    (h : SlotOk a cur mem f) (hcur : cur ≤ cur2) (hframe : ∀ q, q < cur → mem2 q = mem q) :
    SlotOk a cur2 mem2 f := by
  obtain ⟨h1, h2, h3⟩ := h
  refine ⟨h1, h2, ?_⟩
  rcases h3 with h3 | ⟨c1, c2, c3, c4, c5, c6⟩
  · exact Or.inl h3
  · exact Or.inr ⟨c1, c2, c3, c4, by omega, stringAt_frame _ _ _ _ _ c6 c5 hframe⟩

/-- Replacing one slot preserves the invariant when the allocator cursor only
advances inside the arena, memory below the old cursor is untouched, and the
new slot, if occupied, is well formed and its name is not held by another
occupied slot. -/
theorem inv_update (a : Arena) (s : State) (hI : Inv a s) (i : Nat) (f : file_t)
    (heap2 : Heap) (mem2 : Nat → Nat)
    (hcur : s.heap.heap_current ≤ heap2.heap_current)
    (hhi : heap2.heap_current ≤ a.heap_end)
    (htot : a.heap_start + heap2.total_allocated = heap2.heap_current)
    (hframe : ∀ q, q < s.heap.heap_current → mem2 q = s.mem q)
    (hf : f.in_use = true → SlotOk a heap2.heap_current mem2 f ∧
      ∀ j, j < MAX_FILES → j ≠ i → (s.files j).in_use = true →
        cstr (s.files j).name ≠ cstr f.name) :
    Inv a { files := Function.update s.files i f, heap := heap2, mem := mem2 } := by
  refine ⟨le_trans hI.heap_lo hcur, hhi, htot, ?_, ?_⟩
  · intro j k hj hk uj uk hjk
    simp only at uj uk hjk
    by_cases hji : j = i
    · by_cases hki : k = i
      · rw [hji, hki]
      · exfalso
        subst hji
        rw [Function.update_same] at uj hjk
        rw [Function.update_noteq hki] at uk hjk
        exact (hf uj).2 k hk hki uk hjk.symm
    · by_cases hki : k = i
      · exfalso
        subst hki
        rw [Function.update_same] at uk hjk
        rw [Function.update_noteq hji] at uj hjk
        exact (hf uk).2 j hj hji uj hjk
      · rw [Function.update_noteq hji] at uj hjk
        rw [Function.update_noteq hki] at uk hjk
        exact hI.unique j k hj hk uj uk hjk
  · intro j hj uj
    simp only at uj ⊢
    by_cases hji : j = i
    · subst hji
      rw [Function.update_same] at uj ⊢
      exact (hf uj).1
    · rw [Function.update_noteq hji] at uj ⊢
      exact slotOk_frame a _ _ _ _ _ (hI.slot_ok j hj uj) hcur hframe

theorem inv_init (a : Arena) (ha : a.WF) (files0 : Nat → file_t) (mem0 : Nat → Nat) :
    Inv a { files := fs_init files0, heap := memory_init a, mem := mem0 } := by
  have hfree : ∀ i, i < MAX_FILES → (fs_init files0 i).in_use = false := by
    intro i hi
    simp [fs_init, hi]
  refine ⟨le_refl _, ha.2.1, rfl, ?_, ?_⟩
  · intro i j hi _ ui
    simp only at ui
    rw [hfree i hi] at ui
    cases ui
  · intro i hi ui
    simp only at ui
    rw [hfree i hi] at ui
    cases ui

theorem inv_delete (a : Arena) (s : State) (hI : Inv a s) (filename : List Nat) :
    Inv a (fs_delete_file s filename).2 := by
  unfold fs_delete_file
  cases hf : find_file s.files filename with
  | none => exact hI
  | some i =>
    exact inv_update a s hI i _ s.heap s.mem (le_refl _) hI.heap_hi hI.total (fun _ _ => rfl)
      (fun h => by cases h)

theorem content_len_eq (content : Option (List Nat)) :
    content_len content = strlen (content.getD []) := by
  cases content <;> rfl

theorem strlen_congr (s1 s2 : List Nat) (h : cstr s1 = cstr s2) : strlen s1 = strlen s2 := by
  rw [strlen_eq_length_cstr, strlen_eq_length_cstr, h]

/-- What staging yields: the slot, the staged table as an update of the old
one, and whether the slot held the name already or was the first free one. -/
theorem stage_spec (a : Arena) (s : State) (hI : Inv a s) (filename : List Nat)
    (hlen : strlen filename < MAX_FILENAME_LEN) (i : Nat) (files : Nat → file_t)
    (h : stage s filename = some (i, files)) :
    i < MAX_FILES ∧
    (∀ g, Function.update files i g = Function.update s.files i g) ∧
    (files i).in_use = true ∧ cstr (files i).name = cstr filename ∧
    (files i).content = (s.files i).content ∧ (files i).size = (s.files i).size ∧
    (∀ j, j < MAX_FILES → j ≠ i → (s.files j).in_use = true →
      cstr (s.files j).name ≠ cstr filename) ∧
    ((find_file s.files filename = some i ∧ files = s.files) ∨
     (find_file s.files filename = none ∧ find_free_slot s.files = some i ∧
        (s.files i).in_use = false)) := by
  rcases stage_cases s filename with ⟨_, _, h0⟩ | ⟨k, hf, h1⟩ | ⟨k, hf, hs, h1⟩
  · rw [h0] at h; cases h
  · rw [h1] at h
    cases h
    have hk := (find_file_eq_some _ _ _).1 hf
    refine ⟨hk.1, fun _ => rfl, hk.2.1, hk.2.2.1, rfl, rfl, ?_, Or.inl ⟨hf, rfl⟩⟩
    intro j hj hji uj hjn
    exact hji (hI.unique j i hj hk.1 uj hk.2.1 (hjn.trans hk.2.2.1.symm))
  · rw [h1] at h
    cases h
    have hk := (find_free_slot_eq_some _ _).1 hs
    have hnone := (find_file_eq_none _ _).1 hf
    refine ⟨hk.1, fun g => Function.update_idem _ _ _, ?_, ?_, ?_, ?_, ?_,
      Or.inr ⟨hf, hs, hk.2.1⟩⟩
    · rw [Function.update_same]
    · rw [Function.update_same]
      exact cstr_strncpy _ _ (by unfold MAX_FILENAME_LEN at hlen ⊢; omega)
    · rw [Function.update_same]
    · rw [Function.update_same]
    · intro j hj _ uj
      exact hnone j hj uj

/-- Outcome of the allocation request of `fs_write_file` in a state that
satisfies the invariant. -/
theorem malloc_write (a : Arena) (s : State) (ha : a.WF) (hI : Inv a s) (n : Nat)
    (hn : n ≤ MAX_FILE_SIZE) :
    (a.heap_end < s.heap.heap_current + (n + 16) / 16 * 16 ∧
      malloc a s.heap (n + 1) = (0, s.heap)) ∨
    (s.heap.heap_current + (n + 16) / 16 * 16 ≤ a.heap_end ∧
      (malloc a s.heap (n + 1)).1 = s.heap.heap_current ∧
      (malloc a s.heap (n + 1)).1 ≠ 0 ∧
      (malloc a s.heap (n + 1)).2.heap_current = s.heap.heap_current + (n + 16) / 16 * 16 ∧
      (malloc a s.heap (n + 1)).2.total_allocated =
        s.heap.total_allocated + (n + 16) / 16 * 16) := by
  rcases malloc_content a s.heap n ha hI.heap_hi hn with ⟨h1, h2⟩ | ⟨h1, h2⟩
  · exact Or.inl ⟨h1, h2⟩
  · right
    rw [h2]
    have hlo := hI.heap_lo
    have htot := hI.total
    obtain ⟨w1, w2, w3⟩ := ha
    refine ⟨h1, rfl, ?_, rfl, ?_⟩
    · simp only; omega
    · simp only
      exact Nat.mod_eq_of_lt (by omega)

theorem inv_write (a : Arena) (ha : a.WF) (s : State) (hI : Inv a s)
    (filename content : Option (List Nat)) : Inv a (fs_write_file a s filename content).2 := by
  cases filename with
  | none => exact hI
  | some filename =>
    rw [fs_write_file_eq]
    by_cases hv : filename.headD 0 = 0 ∨ MAX_FILENAME_LEN ≤ strlen filename ∨
        MAX_FILE_SIZE < content_len content
    · rw [if_pos hv]; exact hI
    rw [if_neg hv]
    have hv1 : cstr filename ≠ [] := fun h => hv (Or.inl ((headD_eq_zero_iff _).2 h))
    have hv2 : strlen filename < MAX_FILENAME_LEN := by
      by_contra h; exact hv (Or.inr (Or.inl (by omega)))
    have hv3 : content_len content ≤ MAX_FILE_SIZE := by
      by_contra h; exact hv (Or.inr (Or.inr (by omega)))
    cases hst : stage s filename with
    | none => exact hI
    | some pr =>
      obtain ⟨i, files⟩ := pr
      obtain ⟨hi, hupd, huse, hname, _, _, huniq, _⟩ := stage_spec a s hI filename hv2 i files hst
      have hnm : cstr (files i).name ≠ [] ∧ strlen (files i).name < MAX_FILENAME_LEN := by
        rw [hname, strlen_congr _ _ hname]; exact ⟨hv1, hv2⟩
      simp only
      rcases commit_cases a s i files content with ⟨h0, hc⟩ | ⟨hpos, hm, hc⟩ | ⟨hpos, hm, hc⟩
      · rw [hc, hupd]
        refine inv_update a s hI i _ s.heap s.mem (le_refl _) hI.heap_hi hI.total
          (fun _ _ => rfl) (fun _ => ⟨⟨hnm.1, hnm.2, Or.inl ⟨rfl, rfl⟩⟩, ?_⟩)
        intro j hj hji uj
        rw [hname]; exact huniq j hj hji uj
      · rw [hc, hupd]
        have hheap : (malloc a s.heap (content_len content + 1)).2 = s.heap := by
          rcases malloc_write a s ha hI _ hv3 with ⟨_, h2⟩ | ⟨_, _, h3, _⟩
          · rw [h2]
          · exact absurd hm h3
        rw [hheap]
        exact inv_update a s hI i _ s.heap s.mem (le_refl _) hI.heap_hi hI.total
          (fun _ _ => rfl) (fun h => by cases h)
      · rw [hc, hupd]
        rcases malloc_write a s ha hI _ hv3 with ⟨_, h2⟩ | ⟨hroom, hp, _, hcur, htot⟩
        · rw [h2] at hm; exact absurd rfl hm
        · have hal := align16_content _ hv3
          have hlo := hI.heap_lo
          have htotal := hI.total
          refine inv_update a s hI i _ _ _ (by rw [hcur]; omega) (by rw [hcur]; exact hroom)
            (by rw [hcur, htot]; omega) ?_ (fun _ => ⟨⟨hnm.1, hnm.2, Or.inr ?_⟩, ?_⟩)
          · intro q hq
            exact strcpy_outside _ _ _ _ (Or.inl (by rw [hp]; exact hq))
          · refine ⟨hm, hpos, hv3, by rw [hp]; exact hlo, ?_, ?_⟩
            · simp only; rw [hp, hcur]; omega
            · simp only
              rw [content_len_eq]
              exact strcpy_stringAt _ _ _
          · intro j hj hji uj
            simp only
            rw [hname]; exact huniq j hj hji uj

theorem Reachable.inv {a : Arena} (ha : a.WF) {s : State} (h : Reachable a s) : Inv a s := by
  induction h with
  | init files0 mem0 => exact inv_init a ha files0 mem0
  | write s filename content _ ih => exact inv_write a ha s ih filename content
  | delete s filename _ ih => exact inv_delete a s ih filename

/-! ## Effects of a write on the table -/

/-- Complete description of a call of `fs_write_file` with a non-null name in
a state that satisfies the invariant: either nothing changes and `-1` is
returned (validation failure or full table), or a slot `i` is staged and the
call ends in one of three ways: empty content stored, allocation failure, or
content stored in a fresh block at the old cursor. -/
theorem write_spec (a : Arena) (ha : a.WF) (s : State) (hI : Inv a s) (filename : List Nat)
    (content : Option (List Nat)) :
    ((cstr filename = [] ∨ MAX_FILENAME_LEN ≤ strlen filename ∨
        MAX_FILE_SIZE < content_len content ∨
        (find_file s.files filename = none ∧ find_free_slot s.files = none)) ∧
      fs_write_file a s (some filename) content = (-1, s)) ∨
    (cstr filename ≠ [] ∧ strlen filename < MAX_FILENAME_LEN ∧
      content_len content ≤ MAX_FILE_SIZE ∧
      ∃ i files, stage s filename = some (i, files) ∧
        ((content_len content = 0 ∧
          fs_write_file a s (some filename) content =
            (0, { s with
              files := Function.update s.files i { files i with content := 0, size := 0 } })) ∨
         (0 < content_len content ∧
          a.heap_end < s.heap.heap_current + (content_len content + 16) / 16 * 16 ∧
          fs_write_file a s (some filename) content =
            (-1, { s with
              files := Function.update s.files i
                { files i with content := 0, in_use := false } })) ∨
         (0 < content_len content ∧
          s.heap.heap_current + (content_len content + 16) / 16 * 16 ≤ a.heap_end ∧
          fs_write_file a s (some filename) content =
            (0, { files := Function.update s.files i
                    { files i with
                      content := s.heap.heap_current, size := content_len content },
                  heap :=
                    { heap_current :=
                        s.heap.heap_current + (content_len content + 16) / 16 * 16,
                      total_allocated :=
                        s.heap.total_allocated + (content_len content + 16) / 16 * 16 },
                  mem := strcpy s.mem s.heap.heap_current (content.getD []) })))) := by
  rw [fs_write_file_eq]
  by_cases hv : filename.headD 0 = 0 ∨ MAX_FILENAME_LEN ≤ strlen filename ∨
      MAX_FILE_SIZE < content_len content
  · rw [if_pos hv]
    left
    refine ⟨?_, rfl⟩
    rcases hv with h | h | h
    · exact Or.inl ((headD_eq_zero_iff _).1 h)
    · exact Or.inr (Or.inl h)
    · exact Or.inr (Or.inr (Or.inl h))
  rw [if_neg hv]
  have hv1 : cstr filename ≠ [] := fun h => hv (Or.inl ((headD_eq_zero_iff _).2 h))
  have hv2 : strlen filename < MAX_FILENAME_LEN := by
    by_contra h; exact hv (Or.inr (Or.inl (by omega)))
  have hv3 : content_len content ≤ MAX_FILE_SIZE := by
    by_contra h; exact hv (Or.inr (Or.inr (by omega)))
  cases hst : stage s filename with
  | none =>
    left
    rcases stage_cases s filename with ⟨h1, h2, _⟩ | ⟨k, _, h1⟩ | ⟨k, _, _, h1⟩
    · exact ⟨Or.inr (Or.inr (Or.inr ⟨h1, h2⟩)), rfl⟩
    · rw [hst] at h1; cases h1
    · rw [hst] at h1; cases h1
  | some pr =>
    obtain ⟨i, files⟩ := pr
    right
    refine ⟨hv1, hv2, hv3, i, files, rfl, ?_⟩
    obtain ⟨_, hupd, _⟩ := stage_spec a s hI filename hv2 i files hst
    simp only
    rcases commit_cases a s i files content with ⟨h0, hc⟩ | ⟨hpos, hm, hc⟩ | ⟨hpos, hm, hc⟩
    · left
      rw [hc, hupd]
      exact ⟨h0, rfl⟩
    · right; left
      rcases malloc_write a s ha hI _ hv3 with ⟨h1, h2⟩ | ⟨_, _, h3, _⟩
      · rw [hc, hupd, h2]
        exact ⟨hpos, h1, rfl⟩
      · exact absurd hm h3
    · right; right
      rcases malloc_write a s ha hI _ hv3 with ⟨_, h2⟩ | ⟨hroom, hp, _, hcur, htot⟩
      · rw [h2] at hm; exact absurd rfl hm
      · refine ⟨hpos, hroom, ?_⟩
        rw [hc, hupd, hp]
        have hheap : (malloc a s.heap (content_len content + 1)).2 =
            { heap_current := s.heap.heap_current + (content_len content + 16) / 16 * 16,
              total_allocated :=
                s.heap.total_allocated + (content_len content + 16) / 16 * 16 } := by
          rw [← hcur, ← htot]
        rw [hheap]

theorem find_file_update_self (files : Nat → file_t) (i : Nat) (g : file_t)
    (filename : List Nat) (hi : i < MAX_FILES) (hg : g.in_use = true)
    (hname : cstr g.name = cstr filename)
    (huniq : ∀ j, j < MAX_FILES → j ≠ i → (files j).in_use = true →
      cstr (files j).name ≠ cstr filename) :
    find_file (Function.update files i g) filename = some i := by
  rw [find_file_eq_some]
  refine ⟨hi, by rw [Function.update_same]; exact hg,
    by rw [Function.update_same]; exact hname, ?_⟩
  intro j hj
  have hji : j ≠ i := by omega
  rw [Function.update_noteq hji]
  rintro ⟨uj, hjn⟩
  exact huniq j (by omega) hji uj hjn

/-- Lookup only reads the occupancy flags and the names of the slots. -/
theorem find_file_congr (files files2 : Nat → file_t) (filename : List Nat)
    (h : ∀ j, j < MAX_FILES → (files2 j).in_use = (files j).in_use ∧
      ((files j).in_use = true → cstr (files2 j).name = cstr (files j).name)) :
    find_file files2 filename = find_file files filename := by
  have key : ∀ j, j < MAX_FILES →
      (((files2 j).in_use = true ∧ cstr (files2 j).name = cstr filename) ↔
       ((files j).in_use = true ∧ cstr (files j).name = cstr filename)) := by
    intro j hj
    obtain ⟨h1, h2⟩ := h j hj
    constructor
    · rintro ⟨u, n⟩
      rw [h1] at u
      exact ⟨u, by rw [← h2 u]; exact n⟩
    · rintro ⟨u, n⟩
      exact ⟨by rw [h1]; exact u, by rw [h2 u]; exact n⟩
  cases hf : find_file files filename with
  | none =>
    rw [find_file_eq_none] at hf ⊢
    intro j hj uj hn
    exact hf j hj ((key j hj).1 ⟨uj, hn⟩).1 ((key j hj).1 ⟨uj, hn⟩).2
  | some i =>
    rw [find_file_eq_some] at hf ⊢
    obtain ⟨hi, hu, hn, hfirst⟩ := hf
    refine ⟨hi, ((key i hi).2 ⟨hu, hn⟩).1, ((key i hi).2 ⟨hu, hn⟩).2, ?_⟩
    intro j hj hc
    exact hfirst j hj ((key j (by omega)).1 hc)

/-- Lookup of a name is not affected by replacing a slot that neither held
the name before nor holds it afterwards. -/
theorem find_file_update_other (files : Nat → file_t) (i : Nat) (g : file_t)
    (filename : List Nat)
    (hold : (files i).in_use = true → cstr (files i).name ≠ cstr filename)
    (hnew : g.in_use = true → cstr g.name ≠ cstr filename) :
    find_file (Function.update files i g) filename = find_file files filename := by
  have key : ∀ j, (((Function.update files i g) j).in_use = true ∧
        cstr ((Function.update files i g) j).name = cstr filename) ↔
      ((files j).in_use = true ∧ cstr (files j).name = cstr filename) := by
    intro j
    by_cases hji : j = i
    · subst hji
      rw [Function.update_same]
      constructor
      · rintro ⟨u, n⟩; exact absurd n (hnew u)
      · rintro ⟨u, n⟩; exact absurd n (hold u)
    · rw [Function.update_noteq hji]
  cases hf : find_file files filename with
  | none =>
    rw [find_file_eq_none] at hf ⊢
    intro j hj uj hn
    exact hf j hj ((key j).1 ⟨uj, hn⟩).1 ((key j).1 ⟨uj, hn⟩).2
  | some k =>
    rw [find_file_eq_some] at hf ⊢
    obtain ⟨hk, hu, hn, hfirst⟩ := hf
    refine ⟨hk, ((key k).2 ⟨hu, hn⟩).1, ((key k).2 ⟨hu, hn⟩).2, ?_⟩
    intro j hj hc
    exact hfirst j hj ((key j).1 hc)

theorem countP_range_update (p q : Nat → Bool) (i n : Nat) (hi : i < n)
    (h : ∀ j, j ≠ i → q j = p j) :
    (List.range n).countP q + (if p i then 1 else 0) =
      (List.range n).countP p + (if q i then 1 else 0) := by
  induction n with
  | zero => omega
  | succ n ih =>
    rw [List.range_succ, List.countP_append, List.countP_append]
    by_cases hin : i = n
    · subst hin
      have hsame : (List.range i).countP q = (List.range i).countP p := by
        apply List.countP_congr
        intro j hj
        rw [List.mem_range] at hj
        rw [h j (by omega)]
      rw [hsame]
      simp only [List.countP_cons, List.countP_nil, Nat.zero_add]
      omega
    · have := ih (by omega)
      have hn : q n = p n := h n (fun h => hin h.symm)
      simp only [List.countP_cons, List.countP_nil, Nat.zero_add, hn]
      omega

theorem countP_range_congr (p q : Nat → Bool) (n : Nat) (h : ∀ j, j < n → q j = p j) :
    (List.range n).countP q = (List.range n).countP p := by
  apply List.countP_congr
  intro j hj
  rw [List.mem_range] at hj
  rw [h j hj]

/-! ## Claims about the file table -/

/-- A successful write went through staging and ended in one of the two
committing branches. -/
theorem write_ok_spec (a : Arena) (ha : a.WF) (s : State) (hI : Inv a s) (filename : List Nat)
    (content : Option (List Nat))
    (hok : (fs_write_file a s (some filename) content).1 = 0) :
    cstr filename ≠ [] ∧ strlen filename < MAX_FILENAME_LEN ∧
      content_len content ≤ MAX_FILE_SIZE ∧
      ∃ i files, stage s filename = some (i, files) ∧
        ((content_len content = 0 ∧
          fs_write_file a s (some filename) content =
            (0, { s with
              files := Function.update s.files i { files i with content := 0, size := 0 } })) ∨
         (0 < content_len content ∧
          s.heap.heap_current + (content_len content + 16) / 16 * 16 ≤ a.heap_end ∧
          fs_write_file a s (some filename) content =
            (0, { files := Function.update s.files i
                    { files i with
                      content := s.heap.heap_current, size := content_len content },
                  heap :=
                    { heap_current :=
                        s.heap.heap_current + (content_len content + 16) / 16 * 16,
                      total_allocated :=
                        s.heap.total_allocated + (content_len content + 16) / 16 * 16 },
                  mem := strcpy s.mem s.heap.heap_current (content.getD []) }))) := by
  rcases write_spec a ha s hI filename content with ⟨_, h⟩ | ⟨v1, v2, v3, i, files, hst, h⟩
  · rw [h] at hok; cases hok
  · refine ⟨v1, v2, v3, i, files, hst, ?_⟩
    rcases h with h | ⟨_, _, h⟩ | h
    · exact Or.inl h
    · rw [h] at hok; cases hok
    · exact Or.inr h

/-- Round trip of a non-empty content: in a reachable state, if
`fs_write_file(name, content)` returns 0 and `content` is not empty, the
immediately following `fs_read_file(name)` returns a non-null pointer to
exactly the bytes of `content`. -/
theorem write_then_read_nonempty (a : Arena) (ha : a.WF) (s : State) (hs : Reachable a s)
    (name content : List Nat)
    (hok : (fs_write_file a s (some name) (some content)).1 = 0)
    (hpos : 0 < strlen content) :
    fs_read_file (fs_write_file a s (some name) (some content)).2 name ≠ 0 ∧
    string_at (fs_write_file a s (some name) (some content)).2
      (fs_read_file (fs_write_file a s (some name) (some content)).2 name) =
        cstr content := by
  have hI := hs.inv ha
  obtain ⟨_, v2, v3, i, files, hst, h⟩ := write_ok_spec a ha s hI name (some content) hok
  obtain ⟨hi, _, huse, hname, _, _, huniq, _⟩ := stage_spec a s hI name v2 i files hst
  have hlen : content_len (some content) = strlen content := rfl
  rcases h with ⟨h0, _⟩ | ⟨_, _, heq⟩
  · rw [hlen] at h0; omega
  · rw [heq]
    have hfind : find_file (Function.update s.files i
        { files i with content := s.heap.heap_current, size := content_len (some content) })
        name = some i := find_file_update_self _ _ _ _ hi huse hname huniq
    simp only [fs_read_file, hfind, Function.update_same, string_at, Option.getD_some]
    refine ⟨?_, load_cstr_strcpy _ _ _ _ (by rw [hlen] at v3; omega)⟩
    have := hI.heap_lo
    have := ha.1
    omega

/-- C1 (failing input): after boot, `fs_write_file("a", "")` returns 0, and
the immediately following `fs_read_file("a")` returns `NULL`, the value that
`memfs.h` documents for a file that is not found. -/
theorem write_empty_then_read_null :
    Reachable demo_arena (boot_state demo_arena) ∧
    (fs_write_file demo_arena (boot_state demo_arena) (some [97]) (some [])).1 = 0 ∧
    fs_read_file (fs_write_file demo_arena (boot_state demo_arena) (some [97])
      (some [])).2 [97] = 0 :=
  ⟨Reachable.init _ _, by decide, by decide⟩

theorem fs_file_exists_eq_zero (s : State) (filename : List Nat) :
    fs_file_exists s filename = 0 ↔ find_file s.files filename = none := by
  unfold fs_file_exists
  cases find_file s.files filename <;> simp

theorem fs_file_exists_eq_one (s : State) (filename : List Nat) :
    fs_file_exists s filename = 1 ↔ ∃ i, find_file s.files filename = some i := by
  unfold fs_file_exists
  cases find_file s.files filename <;> simp

/-- C2: in a reachable state, when `fs_write_file` of a name that is not
present fails (in particular because `malloc` returns `NULL`), afterwards the
name still does not exist, the file count is unchanged, `fs_read_file` and
`fs_file_exists` answer as before for every name, no slot has changed its
occupancy, and allocator and memory are untouched. -/
theorem write_new_failure_rollback (a : Arena) (ha : a.WF) (s : State) (hs : Reachable a s)
    (name : List Nat) (content : Option (List Nat))
    (habsent : fs_file_exists s name = 0)
    (hfail : (fs_write_file a s (some name) content).1 = -1) :
    fs_file_exists (fs_write_file a s (some name) content).2 name = 0 ∧
    fs_get_file_count (fs_write_file a s (some name) content).2 = fs_get_file_count s ∧
    (∀ other,
      fs_read_file (fs_write_file a s (some name) content).2 other = fs_read_file s other ∧
      fs_file_exists (fs_write_file a s (some name) content).2 other =
        fs_file_exists s other) ∧
    (∀ i, i < MAX_FILES →
      ((fs_write_file a s (some name) content).2.files i).in_use = (s.files i).in_use) ∧
    (fs_write_file a s (some name) content).2.heap = s.heap ∧
    (fs_write_file a s (some name) content).2.mem = s.mem := by
  have hI := hs.inv ha
  rw [fs_file_exists_eq_zero] at habsent
  rcases write_spec a ha s hI name content with ⟨_, h⟩ | ⟨_, v2, _, i, files, hst, h⟩
  · rw [h]
    exact ⟨(fs_file_exists_eq_zero _ _).2 habsent, rfl, fun _ => ⟨rfl, rfl⟩, fun _ _ => rfl,
      rfl, rfl⟩
  · obtain ⟨hi, _, _, _, _, _, _, hkind⟩ := stage_spec a s hI name v2 i files hst
    have hfree : (s.files i).in_use = false := by
      rcases hkind with ⟨hf, _⟩ | ⟨_, _, hfree⟩
      · rw [hf] at habsent; cases habsent
      · exact hfree
    rcases h with ⟨_, h⟩ | ⟨_, _, h⟩ | ⟨_, _, h⟩
    · rw [h] at hfail; cases hfail
    · rw [h]
      have hfind : ∀ other, find_file (Function.update s.files i
          { files i with content := 0, in_use := false }) other = find_file s.files other :=
        fun other => find_file_update_other _ _ _ _
          (fun hu => by rw [hfree] at hu; cases hu) (fun hu => by cases hu)
      have huse : ∀ j, ((Function.update s.files i
          { files i with content := 0, in_use := false }) j).in_use = (s.files j).in_use := by
        intro j
        by_cases hji : j = i
        · subst hji; rw [Function.update_same, hfree]
        · rw [Function.update_noteq hji]
      refine ⟨?_, ?_, ?_, fun j _ => huse j, rfl, rfl⟩
      · rw [fs_file_exists_eq_zero, hfind]; exact habsent
      · unfold fs_get_file_count
        simp only
        rw [countP_range_congr _ _ _ (fun j _ => huse j)]
      · intro other
        constructor
        · unfold fs_read_file
          simp only
          rw [hfind other]
          cases hfo : find_file s.files other with
          | none => rfl
          | some k =>
            have hk := (find_file_eq_some _ _ _).1 hfo
            have hki : k ≠ i := by
              rintro rfl
              rw [hfree] at hk
              cases hk.2.1
            simp only
            rw [Function.update_noteq hki]
        · unfold fs_file_exists
          simp only
          rw [hfind other]
    · rw [h] at hfail; cases hfail

/-- Witness of `write_new_failure_rollback`: on the exhausted 16-byte arena
the write of "b" fails in `malloc`. -/
theorem write_new_failure_rollback_witness :
    tiny_arena.WF ∧ Reachable tiny_arena tiny_one_file ∧
    fs_file_exists tiny_one_file [98] = 0 ∧
    (malloc tiny_arena tiny_one_file.heap 2).1 = 0 ∧
    (fs_write_file tiny_arena tiny_one_file (some [98]) (some [121])).1 = -1 ∧
    fs_file_exists (fs_write_file tiny_arena tiny_one_file (some [98]) (some [121])).2 [98]
      = 0 ∧
    fs_get_file_count (fs_write_file tiny_arena tiny_one_file (some [98]) (some [121])).2
      = fs_get_file_count tiny_one_file :=
  have hr : Reachable tiny_arena tiny_one_file := Reachable.write _ _ _ (Reachable.init _ _)
  have h := write_new_failure_rollback tiny_arena (by decide) tiny_one_file hr [98]
    (some [121]) (by decide) (by decide)
  ⟨by decide, hr, by decide, by decide, by decide, h.1, h.2.1⟩

/-- C3 (failing input): on the exhausted 16-byte arena "a" exists with count
1; overwriting "a" fails in `malloc`, and afterwards "a" no longer exists and
the count is 0. -/
theorem overwrite_failure_drops_file :
    Reachable tiny_arena tiny_one_file ∧
    fs_file_exists tiny_one_file [97] = 1 ∧ fs_get_file_count tiny_one_file = 1 ∧
    (malloc tiny_arena tiny_one_file.heap 2).1 = 0 ∧
    (fs_write_file tiny_arena tiny_one_file (some [97]) (some [121])).1 = -1 ∧
    fs_file_exists (fs_write_file tiny_arena tiny_one_file (some [97]) (some [121])).2 [97]
      = 0 ∧
    fs_get_file_count (fs_write_file tiny_arena tiny_one_file (some [97]) (some [121])).2
      = 0 :=
  ⟨Reachable.write _ _ _ (Reachable.init _ _), by decide, by decide, by decide, by decide,
    by decide, by decide⟩

/-- C4: for every table and allocator state, `fs_write_file` with an empty
name, a name of length at least 64, or a content longer than 4096 bytes
returns -1 and leaves the whole state (table, allocator, memory) unchanged. -/
theorem write_validation_failure (a : Arena) (s : State) (name : List Nat)
    (content : Option (List Nat))
    (h : strlen name = 0 ∨ MAX_FILENAME_LEN ≤ strlen name ∨
      MAX_FILE_SIZE < content_len content) :
    fs_write_file a s (some name) content = (-1, s) := by
  rw [fs_write_file_eq, if_pos]
  rcases h with h | h | h
  · left
    rw [headD_eq_zero_iff]
    rw [strlen_eq_length_cstr] at h
    exact List.length_eq_zero.1 h
  · exact Or.inr (Or.inl h)
  · exact Or.inr (Or.inr h)

/-- Witness of `write_validation_failure`: a 64-byte name is rejected. -/
theorem write_validation_failure_witness :
    MAX_FILENAME_LEN ≤ strlen (List.replicate 64 97) ∧
    fs_write_file demo_arena (boot_state demo_arena) (some (List.replicate 64 97))
      (some [120]) = (-1, boot_state demo_arena) :=
  ⟨by decide, write_validation_failure demo_arena (boot_state demo_arena)
    (List.replicate 64 97) (some [120]) (Or.inr (Or.inl (by decide)))⟩

theorem cstr_ne_nil_iff (s : List Nat) : cstr s ≠ [] ↔ 0 < strlen s := by
  rw [strlen_eq_length_cstr, List.length_pos]

theorem write_returns (a : Arena) (s : State) (filename content : Option (List Nat)) :
    (fs_write_file a s filename content).1 = 0 ∨
      (fs_write_file a s filename content).1 = -1 := by
  cases filename with
  | none => exact Or.inr rfl
  | some filename =>
    rw [fs_write_file_eq]
    split_ifs
    · exact Or.inr rfl
    · cases stage s filename with
      | none => exact Or.inr rfl
      | some pr =>
        obtain ⟨i, files⟩ := pr
        simp only
        rcases commit_cases a s i files content with ⟨_, h⟩ | ⟨_, _, h⟩ | ⟨_, _, h⟩ <;>
          rw [h] <;> simp

/-- Sufficient conditions for `fs_write_file` to return 0 in a state that
satisfies the invariant. -/
theorem write_ok_of (a : Arena) (ha : a.WF) (s : State) (hI : Inv a s) (name : List Nat)
    (content : Option (List Nat)) (v1 : 0 < strlen name) (v2 : strlen name < MAX_FILENAME_LEN)
    (v3 : content_len content ≤ MAX_FILE_SIZE)
    (hslot : (∃ i, find_file s.files name = some i) ∨
      ∃ i, i < MAX_FILES ∧ (s.files i).in_use = false)
    (hroom : content_len content = 0 ∨
      s.heap.heap_current + (content_len content + 16) / 16 * 16 ≤ a.heap_end) :
    (fs_write_file a s (some name) content).1 = 0 := by
  rcases write_spec a ha s hI name content with ⟨hbad, _⟩ | ⟨_, _, _, i, files, _, h⟩
  · exfalso
    rcases hbad with hb | hb | hb | ⟨hb1, hb2⟩
    · exact (cstr_ne_nil_iff _).2 v1 hb
    · omega
    · omega
    · rcases hslot with ⟨k, hk⟩ | ⟨j, hj, hfree⟩
      · rw [hk] at hb1; cases hb1
      · have := (find_free_slot_eq_none _).1 hb2 j hj
        rw [hfree] at this; cases this
  · rcases h with ⟨_, h⟩ | ⟨hpos, hno, _⟩ | ⟨_, _, h⟩
    · rw [h]
    · exfalso
      rcases hroom with h0 | hroom
      · omega
      · omega
    · rw [h]

/-- C5: in a reachable state, for non-null name and content,
`fs_write_file` returns 0 exactly when the name is non-empty and at most 63
bytes long, the content is at most 4096 bytes long, the name exists or some
slot is unoccupied, and the content is empty or the arena has room for
`strlen(content) + 1` rounded up to a multiple of 16; it returns -1 in every
other case. -/
theorem write_success_iff (a : Arena) (ha : a.WF) (s : State) (hs : Reachable a s)
    (name content : List Nat) :
    ((fs_write_file a s (some name) (some content)).1 = 0 ↔
      0 < strlen name ∧ strlen name ≤ 63 ∧ strlen content ≤ 4096 ∧
      (fs_file_exists s name = 1 ∨ ∃ i, i < MAX_FILES ∧ (s.files i).in_use = false) ∧
      (strlen content = 0 ∨
        s.heap.heap_current + (strlen content + 1 + 15) / 16 * 16 ≤ a.heap_end)) ∧
    ((fs_write_file a s (some name) (some content)).1 ≠ 0 →
      (fs_write_file a s (some name) (some content)).1 = -1) := by
  have hI := hs.inv ha
  have hlen : content_len (some content) = strlen content := rfl
  refine ⟨⟨fun hok => ?_, fun hcond => ?_⟩, fun hne => ?_⟩
  · obtain ⟨v1, v2, v3, i, files, hst, h⟩ := write_ok_spec a ha s hI name (some content) hok
    obtain ⟨hi, _, _, _, _, _, _, hkind⟩ := stage_spec a s hI name v2 i files hst
    rw [hlen] at v3 h
    unfold MAX_FILENAME_LEN at v2
    unfold MAX_FILE_SIZE at v3
    refine ⟨(cstr_ne_nil_iff _).1 v1, by omega, v3, ?_, ?_⟩
    · rcases hkind with ⟨hf, _⟩ | ⟨_, _, hfree⟩
      · exact Or.inl ((fs_file_exists_eq_one _ _).2 ⟨i, hf⟩)
      · exact Or.inr ⟨i, hi, hfree⟩
    · rcases h with ⟨h0, _⟩ | ⟨_, hroom, _⟩
      · exact Or.inl h0
      · exact Or.inr hroom
  · obtain ⟨c1, c2, c3, c4, c5⟩ := hcond
    refine write_ok_of a ha s hI name (some content) c1 (by unfold MAX_FILENAME_LEN; omega)
      (by rw [hlen]; unfold MAX_FILE_SIZE; omega) ?_ ?_
    · rcases c4 with hex | hfree
      · exact Or.inl ((fs_file_exists_eq_one _ _).1 hex)
      · exact Or.inr hfree
    · rw [hlen]
      rcases c5 with h0 | hroom
      · exact Or.inl h0
      · exact Or.inr (by omega)
  · rcases write_returns a s (some name) (some content) with h | h
    · exact absurd h hne
    · exact h

/-- Witness of `write_success_iff`: after boot, writing "hi" to "a" meets
every condition and returns 0. -/
theorem write_success_iff_witness :
    demo_arena.WF ∧ Reachable demo_arena (boot_state demo_arena) ∧
    (fs_write_file demo_arena (boot_state demo_arena) (some [97]) (some [104, 105])).1 = 0 :=
  ⟨by decide, Reachable.init _ _,
    (write_success_iff demo_arena (by decide) (boot_state demo_arena) (Reachable.init _ _)
      [97] [104, 105]).1.2
      ⟨by decide, by decide, by decide, Or.inr ⟨0, by decide, by decide⟩,
        Or.inr (by decide)⟩⟩

theorem fill_reachable (n : Nat) : Reachable demo_arena (fill n (boot_state demo_arena)) := by
  induction n with
  | zero => exact Reachable.init _ _
  | succ n ih => exact Reachable.write _ _ _ ih

/-- C6: in a reachable state whose 32 slots are all occupied, writing a valid
name that is not present returns -1 and leaves the state unchanged; and after
deleting any existing name, the same write returns 0, provided the arena has
room for the content. -/
theorem full_table_admission (a : Arena) (ha : a.WF) (s : State) (hs : Reachable a s)
    (name : List Nat) (content : Option (List Nat))
    (hfull : ∀ i, i < MAX_FILES → (s.files i).in_use = true)
    (v1 : 0 < strlen name) (v2 : strlen name < MAX_FILENAME_LEN)
    (v3 : content_len content ≤ MAX_FILE_SIZE)
    (habsent : fs_file_exists s name = 0) :
    fs_write_file a s (some name) content = (-1, s) ∧
    ∀ victim, fs_file_exists s victim = 1 →
      (content_len content = 0 ∨
        s.heap.heap_current + (content_len content + 16) / 16 * 16 ≤ a.heap_end) →
      (fs_delete_file s victim).1 = 0 ∧
      (fs_write_file a (fs_delete_file s victim).2 (some name) content).1 = 0 := by
  have hI := hs.inv ha
  rw [fs_file_exists_eq_zero] at habsent
  constructor
  · rcases write_spec a ha s hI name content with ⟨_, h⟩ | ⟨_, _, _, i, files, hst, _⟩
    · exact h
    · exfalso
      obtain ⟨hi, _, _, _, _, _, _, hkind⟩ := stage_spec a s hI name v2 i files hst
      rcases hkind with ⟨hf, _⟩ | ⟨_, _, hfree⟩
      · rw [hf] at habsent; cases habsent
      · rw [hfull i hi] at hfree; cases hfree
  · intro victim hex hroom
    obtain ⟨k, hk⟩ := (fs_file_exists_eq_one _ _).1 hex
    have hkk := (find_file_eq_some _ _ _).1 hk
    have hI2 := inv_delete a s hI victim
    have hdel : fs_delete_file s victim =
        (0, { s with
          files := Function.update s.files k
            { name := (s.files k).name.set 0 0, content := 0, size := 0, in_use := false } }) := by
      unfold fs_delete_file
      rw [hk]
    rw [hdel] at hI2 ⊢
    refine ⟨rfl, write_ok_of a ha _ hI2 name content v1 v2 v3 (Or.inr ⟨k, hkk.1, ?_⟩) hroom⟩
    simp only
    rw [Function.update_same]

set_option maxRecDepth 100000 in
/-- Witness of `full_table_admission`, the scenario of the specification:
with "f0" .. "f31" stored, writing "f32" fails and changes nothing; after
deleting "f0" it succeeds, and the listing then has 32 entries, "f32" in the
slot "f0" had, followed by "f1" .. "f31". -/
theorem full_table_admission_witness :
    demo_arena.WF ∧ Reachable demo_arena full_state ∧
    (∀ i, i < MAX_FILES → (full_state.files i).in_use = true) ∧
    fs_file_exists full_state (fname 32) = 0 ∧
    fs_file_exists full_state (fname 0) = 1 ∧
    fs_write_file demo_arena full_state (some (fname 32)) (some [120]) = (-1, full_state) ∧
    (fs_delete_file full_state (fname 0)).1 = 0 ∧
    (fs_write_file demo_arena (fs_delete_file full_state (fname 0)).2 (some (fname 32))
      (some [120])).1 = 0 ∧
    (fs_list_files (fs_write_file demo_arena (fs_delete_file full_state (fname 0)).2
        (some (fname 32)) (some [120])).2).map (fun e => (cstr e.1, e.2)) =
      (fname 32, 1) :: (List.range 31).map (fun i => (fname (i + 1), 1)) :=
  have h := full_table_admission demo_arena (by decide) full_state (fill_reachable 32)
    (fname 32) (some [120]) (by decide) (by decide) (by decide) (by decide) (by decide)
  have h2 := h.2 (fname 0) (by decide) (Or.inr (by decide))
  ⟨by decide, fill_reachable 32, by decide, by decide, by decide, h.1, h2.1, h2.2, by decide⟩

theorem delete_ok_spec (s : State) (name : List Nat) (hok : (fs_delete_file s name).1 = 0) :
    ∃ k, find_file s.files name = some k ∧
      fs_delete_file s name =
        (0, { s with
          files := Function.update s.files k
            { name := (s.files k).name.set 0 0, content := 0, size := 0, in_use := false } }) := by
  unfold fs_delete_file at hok ⊢
  cases hf : find_file s.files name with
  | none => rw [hf] at hok; cases hok
  | some k => exact ⟨k, rfl, rfl⟩

/-- C7: in a reachable state, after `fs_delete_file(name)` returns 0,
`fs_read_file(name)` returns `NULL` and `fs_file_exists(name)` returns 0. -/
theorem delete_then_absent (a : Arena) (ha : a.WF) (s : State) (hs : Reachable a s)
    (name : List Nat) (hok : (fs_delete_file s name).1 = 0) :
    fs_read_file (fs_delete_file s name).2 name = 0 ∧
    fs_file_exists (fs_delete_file s name).2 name = 0 := by
  have hI := hs.inv ha
  obtain ⟨k, hk, hdel⟩ := delete_ok_spec s name hok
  have hkk := (find_file_eq_some _ _ _).1 hk
  have hnone : find_file (fs_delete_file s name).2.files name = none := by
    rw [hdel, find_file_eq_none]
    intro j hj uj hn
    simp only at uj hn
    by_cases hjk : j = k
    · subst hjk
      rw [Function.update_same] at uj
      cases uj
    · rw [Function.update_noteq hjk] at uj hn
      exact hjk (hI.unique j k hj hkk.1 uj hkk.2.1 (hn.trans hkk.2.2.1.symm))
  constructor
  · unfold fs_read_file
    rw [hnone]
  · rw [fs_file_exists_eq_zero]
    exact hnone

/-- Witness of `delete_then_absent`: deleting "a.txt" after it was written. -/
theorem delete_then_absent_witness :
    demo_arena.WF ∧ Reachable demo_arena hi_state ∧
    (fs_delete_file hi_state [97, 46, 116, 120, 116]).1 = 0 ∧
    fs_read_file (fs_delete_file hi_state [97, 46, 116, 120, 116]).2 [97, 46, 116, 120, 116]
      = 0 ∧
    fs_file_exists (fs_delete_file hi_state [97, 46, 116, 120, 116]).2
      [97, 46, 116, 120, 116] = 0 :=
  have hr : Reachable demo_arena hi_state := Reachable.write _ _ _ (Reachable.init _ _)
  ⟨by decide, hr, by decide,
    delete_then_absent demo_arena (by decide) hi_state hr [97, 46, 116, 120, 116]
      (by decide)⟩

/-- In a state that satisfies the invariant, lookup finds any occupied slot
that holds the name. -/
theorem find_file_of_slot (a : Arena) (s : State) (hI : Inv a s) (name : List Nat) (i : Nat)
    (hi : i < MAX_FILES) (hu : (s.files i).in_use = true)
    (hn : cstr (s.files i).name = cstr name) : find_file s.files name = some i := by
  rw [find_file_eq_some]
  refine ⟨hi, hu, hn, ?_⟩
  rintro j hj ⟨uj, hjn⟩
  have := hI.unique j i (by omega) hi uj hu (hjn.trans hn.symm)
  omega

/-- What `fs_read_file` returns in a reachable state: `NULL` for an absent
name, and for a present name the content pointer of the slot that holds it;
when the size of that slot is positive the pointer is non-null and points to
a string of exactly `size` bytes. -/
theorem read_of_slot (a : Arena) (ha : a.WF) (s : State) (hs : Reachable a s)
    (name : List Nat) :
    (fs_file_exists s name = 0 → fs_read_file s name = 0) ∧
    (∀ i, i < MAX_FILES → (s.files i).in_use = true → cstr (s.files i).name = cstr name →
      fs_read_file s name = (s.files i).content ∧
      (0 < (s.files i).size →
        (s.files i).content ≠ 0 ∧
        (string_at s (s.files i).content).length = (s.files i).size)) := by
  have hI := hs.inv ha
  constructor
  · intro habs
    rw [fs_file_exists_eq_zero] at habs
    unfold fs_read_file
    rw [habs]
  · intro i hi hu hn
    have hf := find_file_of_slot a s hI name i hi hu hn
    obtain ⟨_, _, hc⟩ := hI.slot_ok i hi hu
    refine ⟨by unfold fs_read_file; rw [hf], fun hpos => ?_⟩
    rcases hc with ⟨_, c2⟩ | ⟨c1, _, c3, _, _, c6⟩
    · omega
    · exact ⟨c1, load_cstr_length _ _ _ _ c6 (by omega)⟩

/-- C8 (failing input): after boot and `fs_write_file("a", "")`, the file "a"
is present (`fs_file_exists("a")` is 1), yet `fs_read_file("a")` returns
`NULL`. -/
theorem read_null_but_exists :
    Reachable demo_arena empty_file_state ∧
    fs_file_exists empty_file_state [97] = 1 ∧
    fs_read_file empty_file_state [97] = 0 :=
  ⟨Reachable.write _ _ _ (Reachable.init _ _), by decide, by decide⟩

/-- The existing names are the strings held by the occupied slots. -/
theorem existing_names_eq (a : Arena) (s : State) (hI : Inv a s) :
    existing_names s =
      {n | n ∈ ((List.range MAX_FILES).filter (fun i => (s.files i).in_use)).map
        (fun i => cstr (s.files i).name)} := by
  ext n
  simp only [existing_names, Set.mem_setOf_eq, List.mem_map, List.mem_filter, List.mem_range]
  constructor
  · rintro ⟨hnf, hex⟩
    obtain ⟨i, hi⟩ := (fs_file_exists_eq_one _ _).1 hex
    have hk := (find_file_eq_some _ _ _).1 hi
    exact ⟨i, ⟨hk.1, hk.2.1⟩, by rw [hk.2.2.1, cstr_of_nul_free n hnf]⟩
  · rintro ⟨i, ⟨hi, hu⟩, rfl⟩
    refine ⟨cstr_nul_free _, (fs_file_exists_eq_one _ _).2 ⟨i, ?_⟩⟩
    exact find_file_of_slot a s hI _ i hi hu (cstr_idem _).symm

/-- C9: in every state reachable from `fs_init` by calls of `fs_write_file`
and `fs_delete_file`, `fs_get_file_count()` equals the number of distinct
names for which `fs_file_exists` returns 1. -/
theorem count_eq_existing_names (a : Arena) (ha : a.WF) (s : State) (hs : Reachable a s) :
    fs_get_file_count s = ((existing_names s).ncard : Int) := by
  have hI := hs.inv ha
  rw [existing_names_eq a s hI]
  have hnodup : (((List.range MAX_FILES).filter (fun i => (s.files i).in_use)).map
      (fun i => cstr (s.files i).name)).Nodup := by
    apply List.Nodup.map_on
    · intro i hi j hj hij
      simp only [List.mem_filter, List.mem_range] at hi hj
      exact hI.unique i j hi.1 hj.1 hi.2 hj.2 hij
    · exact List.Nodup.filter _ (List.nodup_range _)
  rw [← List.coe_toFinset, Set.ncard_coe_Finset, List.toFinset_card_of_nodup hnodup,
    List.length_map]
  unfold fs_get_file_count
  rw [List.countP_eq_length_filter]

/-- Witness of `count_eq_existing_names`: one name exists after "a.txt" was
written. -/
theorem count_eq_existing_names_witness :
    demo_arena.WF ∧ Reachable demo_arena hi_state ∧
    ((existing_names hi_state).ncard : Int) = 1 :=
  have hr : Reachable demo_arena hi_state := Reachable.write _ _ _ (Reachable.init _ _)
  ⟨by decide, hr,
    (count_eq_existing_names demo_arena (by decide) hi_state hr).symm.trans (by decide)⟩

/-- Frame of an overwrite: in a reachable state in which the name is held by
slot `i`, a successful `fs_write_file(name, content2)` leaves the file count
unchanged, keeps the name in slot `i`, leaves every other slot (name, content
pointer, size, occupancy) and the bytes of every other stored content
untouched; and for a non-empty `content2` the following `fs_read_file(name)`
returns a non-null pointer to exactly the bytes of `content2`. -/
theorem overwrite_frame (a : Arena) (ha : a.WF) (s : State) (hs : Reachable a s)
    (name content2 : List Nat) (i : Nat) (hfind : find_file s.files name = some i)
    (hok : (fs_write_file a s (some name) (some content2)).1 = 0) :
    fs_get_file_count (fs_write_file a s (some name) (some content2)).2 =
      fs_get_file_count s ∧
    find_file (fs_write_file a s (some name) (some content2)).2.files name = some i ∧
    (∀ j, j ≠ i → (fs_write_file a s (some name) (some content2)).2.files j = s.files j) ∧
    (∀ j, j < MAX_FILES → j ≠ i → (s.files j).in_use = true → (s.files j).content ≠ 0 →
      string_at (fs_write_file a s (some name) (some content2)).2 (s.files j).content =
        string_at s (s.files j).content) ∧
    (0 < strlen content2 →
      fs_read_file (fs_write_file a s (some name) (some content2)).2 name ≠ 0 ∧
      string_at (fs_write_file a s (some name) (some content2)).2
        (fs_read_file (fs_write_file a s (some name) (some content2)).2 name) =
          cstr content2) := by
  have hI := hs.inv ha
  obtain ⟨_, v2, v3, k, files, hst, h⟩ := write_ok_spec a ha s hI name (some content2) hok
  obtain ⟨hi, _, huse, hname, _, _, huniq, hkind⟩ := stage_spec a s hI name v2 k files hst
  have hlen : content_len (some content2) = strlen content2 := rfl
  have hki : k = i ∧ files = s.files := by
    rcases hkind with ⟨hf, hfiles⟩ | ⟨hf, _⟩
    · rw [hfind] at hf
      exact ⟨(Option.some.inj hf).symm, hfiles⟩
    · rw [hfind] at hf; cases hf
  obtain ⟨rfl, rfl⟩ := hki
  have hcount : ∀ g : file_t, g.in_use = true →
      ((List.range MAX_FILES).countP (fun j => ((Function.update s.files k g) j).in_use) : Int)
        = ((List.range MAX_FILES).countP (fun j => (s.files j).in_use) : Nat) := by
    intro g hg
    rw [countP_range_congr _ (fun j => (s.files j).in_use)]
    intro j _
    by_cases hjk : j = k
    · subst hjk; rw [Function.update_same, hg, huse]
    · rw [Function.update_noteq hjk]
  rcases h with ⟨h0, heq⟩ | ⟨hpos, _, heq⟩
  · rw [heq]
    have hf2 : find_file (Function.update s.files k { s.files k with content := 0, size := 0 })
        name = some k := find_file_update_self _ _ _ _ hi huse hname huniq
    exact ⟨hcount _ huse, hf2, fun j hj => Function.update_noteq hj _ _, fun _ _ _ _ _ => rfl,
      fun h => by rw [hlen] at h0; omega⟩
  · rw [heq]
    have hf2 : find_file (Function.update s.files k
        { s.files k with content := s.heap.heap_current, size := content_len (some content2) })
        name = some k := find_file_update_self _ _ _ _ hi huse hname huniq
    refine ⟨hcount _ huse, hf2, fun j hj => Function.update_noteq hj _ _, ?_, fun _ => ?_⟩
    · intro j hj _ uj hne
      obtain ⟨_, _, hc⟩ := hI.slot_ok j hj uj
      rcases hc with ⟨c1, _⟩ | ⟨_, _, _, _, c5, c6⟩
      · exact absurd c1 hne
      · unfold string_at
        simp only
        refine load_cstr_congr _ _ _ _ (s.files j).size (fun q hq => ?_) c6.2
        exact strcpy_outside _ _ _ _ (Or.inl (by omega))
    · simp only [fs_read_file, hf2, Function.update_same, string_at, Option.getD_some]
      refine ⟨?_, load_cstr_strcpy _ _ _ _ (by rw [hlen] at v3; omega)⟩
      have := hI.heap_lo
      have := ha.1
      omega

/-- C10 (failing input): with "a.txt" holding "hi", the overwrite
`fs_write_file("a.txt", "")` returns 0, and the following
`fs_read_file("a.txt")` returns `NULL`, not a view of the new content. -/
theorem overwrite_empty_reads_null :
    Reachable demo_arena hi_state ∧
    fs_file_exists hi_state [97, 46, 116, 120, 116] = 1 ∧
    (fs_write_file demo_arena hi_state (some [97, 46, 116, 120, 116]) (some [])).1 = 0 ∧
    fs_read_file (fs_write_file demo_arena hi_state (some [97, 46, 116, 120, 116])
      (some [])).2 [97, 46, 116, 120, 116] = 0 :=
  ⟨Reachable.write _ _ _ (Reachable.init _ _), by decide, by decide, by decide⟩

/-! ## Claims about delete and lookup -/

theorem cstr_set_zero (l : List Nat) : cstr (l.set 0 0) = [] := by
  cases l with
  | nil => rfl
  | cons c l => simp [List.set, cstr]

theorem fs_get_file_count_update (s : State) (k : Nat) (g : file_t) (hk : k < MAX_FILES) :
    fs_get_file_count { s with files := Function.update s.files k g } +
        (if (s.files k).in_use then 1 else 0) =
      fs_get_file_count s + (if g.in_use then 1 else 0) := by
  unfold fs_get_file_count
  have h := countP_range_update (fun i => (s.files i).in_use)
    (fun i => ((Function.update s.files k g) i).in_use) k MAX_FILES hk
    (fun j hj => by simp only; rw [Function.update_noteq hj])
  simp only [Function.update_same] at h
  simp only
  split_ifs at h ⊢ <;> omega

/-- C11: for every state and every name, `fs_delete_file(name)` returns -1
exactly when the name is absent, and then the state is unchanged; otherwise
it returns 0, and then the slot that held the name has a null content, an
empty name, size 0 and is unoccupied, `fs_get_file_count()` has decreased by
exactly 1, and every other slot (and allocator and memory) is unchanged. -/
theorem delete_result_and_frame (s : State) (name : List Nat) :
    ((fs_delete_file s name).1 = -1 ↔ fs_file_exists s name = 0) ∧
    ((fs_delete_file s name).1 = -1 → (fs_delete_file s name).2 = s) ∧
    ((fs_delete_file s name).1 ≠ -1 → (fs_delete_file s name).1 = 0) ∧
    ((fs_delete_file s name).1 = 0 →
      ∃ k, find_file s.files name = some k ∧ k < MAX_FILES ∧
        ((fs_delete_file s name).2.files k).content = 0 ∧
        cstr ((fs_delete_file s name).2.files k).name = [] ∧
        ((fs_delete_file s name).2.files k).size = 0 ∧
        ((fs_delete_file s name).2.files k).in_use = false ∧
        fs_get_file_count (fs_delete_file s name).2 = fs_get_file_count s - 1 ∧
        (∀ j, j ≠ k → (fs_delete_file s name).2.files j = s.files j) ∧
        (fs_delete_file s name).2.heap = s.heap ∧
        (fs_delete_file s name).2.mem = s.mem) := by
  cases hf : find_file s.files name with
  | none =>
    have hdel : fs_delete_file s name = (-1, s) := by
      unfold fs_delete_file; rw [hf]
    rw [hdel]
    refine ⟨⟨fun _ => (fs_file_exists_eq_zero _ _).2 hf, fun _ => rfl⟩, fun _ => rfl,
      fun h => absurd rfl h, fun h => (by cases h)⟩
  | some k =>
    have hdel : fs_delete_file s name =
        (0, { s with
          files := Function.update s.files k
            { name := (s.files k).name.set 0 0, content := 0, size := 0, in_use := false } }) := by
      unfold fs_delete_file; rw [hf]
    have hk := (find_file_eq_some _ _ _).1 hf
    rw [hdel]
    refine ⟨⟨fun h => (by cases h), fun h => ?_⟩, fun h => (by cases h), fun _ => rfl,
      fun _ => ?_⟩
    · rw [fs_file_exists_eq_zero, hf] at h; cases h
    · refine ⟨k, rfl, hk.1, ?_, ?_, ?_, ?_, ?_, fun j hj => Function.update_noteq hj _ _,
        rfl, rfl⟩
      · simp only [Function.update_same]
      · simp only [Function.update_same]; exact cstr_set_zero _
      · simp only [Function.update_same]
      · simp only [Function.update_same]
      · have h := fs_get_file_count_update s k
          { name := (s.files k).name.set 0 0, content := 0, size := 0, in_use := false } hk.1
        rw [hk.2.1] at h
        simp only [if_true] at h
        simp only [Bool.false_eq_true, if_false] at h
        dsimp only
        omega

/-- Witness of `delete_result_and_frame`: deleting "a.txt" from the state
that holds only that file returns 0 and brings the count from 1 to 0. -/
theorem delete_result_and_frame_witness :
    (fs_delete_file hi_state [97, 46, 116, 120, 116]).1 = 0 ∧
    fs_get_file_count hi_state = 1 ∧
    fs_get_file_count (fs_delete_file hi_state [97, 46, 116, 120, 116]).2 = 0 :=
  have h := (delete_result_and_frame hi_state [97, 46, 116, 120, 116]).2.2.2 (by decide)
  ⟨by decide, by decide, by
    obtain ⟨k, _, _, _, _, _, _, hc, _⟩ := h
    rw [hc]; decide⟩

/-- C12: for every table state and every name, `fs_file_exists(name)` returns
1 exactly when some occupied slot stores a name whose NUL-terminated string
equals that of `name` byte for byte, and 0 otherwise; and `strcmp(a, b)` is 0
exactly when the NUL-terminated strings `a` and `b` are equal. -/
theorem exists_iff_exact_match (s : State) (name : List Nat) :
    (fs_file_exists s name = 1 ↔
      ∃ i, i < MAX_FILES ∧ (s.files i).in_use = true ∧
        cstr (s.files i).name = cstr name) ∧
    (fs_file_exists s name = 0 ↔
      ¬ ∃ i, i < MAX_FILES ∧ (s.files i).in_use = true ∧
        cstr (s.files i).name = cstr name) ∧
    (∀ a b : List Nat, strcmp a b = 0 ↔ cstr a = cstr b) := by
  have hnone : fs_file_exists s name = 0 ↔
      ¬ ∃ i, i < MAX_FILES ∧ (s.files i).in_use = true ∧
        cstr (s.files i).name = cstr name := by
    rw [fs_file_exists_eq_zero, find_file_eq_none]
    constructor
    · rintro h ⟨i, hi, hu, hn⟩
      exact h i hi hu hn
    · intro h j hj hu hn
      exact h ⟨j, hj, hu, hn⟩
  refine ⟨?_, hnone, strcmp_eq_zero_iff⟩
  constructor
  · intro h
    by_contra hno
    rw [hnone.2 hno] at h
    cases h
  · intro h
    by_contra hne
    have h0 : fs_file_exists s name = 0 := by
      unfold fs_file_exists at hne ⊢
      split_ifs at hne ⊢ with hh
      · exact absurd rfl hne
      · rfl
    exact hnone.1 h0 h

/-! ## Claims about the allocator -/

/-- The step of `malloc` on a request for which neither the rounding nor the
pointer addition exceeds 64 bits: refusal without change when the rounded
request does not fit, otherwise a block at the old cursor and an advance of
cursor and counter by the rounded size. -/
theorem malloc_step (a : Arena) (h : Heap) (size : Nat) (h0 : 0 < size)
    (h1 : size + 15 < SIZE_MOD) (h2 : h.heap_current + (size + 15) / 16 * 16 < SIZE_MOD) :
    (a.heap_end < h.heap_current + (size + 15) / 16 * 16 → malloc a h size = (0, h)) ∧
    (h.heap_current + (size + 15) / 16 * 16 ≤ a.heap_end →
      malloc a h size =
        (h.heap_current,
          { heap_current := h.heap_current + (size + 15) / 16 * 16,
            total_allocated := (h.total_allocated + (size + 15) / 16 * 16) % SIZE_MOD })) := by
  have hal : align16 size = (size + 15) / 16 * 16 := by
    rw [align16_eq]
    unfold SIZE_MOD at h1
    rw [Nat.mod_eq_of_lt h1]
  have hmod : (h.heap_current + (size + 15) / 16 * 16) % SIZE_MOD =
      h.heap_current + (size + 15) / 16 * 16 := Nat.mod_eq_of_lt h2
  unfold malloc
  rw [if_neg (by omega)]
  simp only [hal, hmod]
  constructor
  · intro hbig
    rw [if_pos hbig]
  · intro hfit
    rw [if_neg (by omega)]

/-- C13 (failing input): right after `memory_init` on the arena
[4096, 8192), a request of `2^64 - 1` bytes is not refused: `size + 15` wraps
to 14, the rounded size is 0, and `malloc` returns the non-null cursor 4096
without advancing; and a request of `2^64 - 4096` bytes, whose rounded size
added to the cursor is `2^64 > 8192`, is not refused either: the pointer
addition wraps to 0, `malloc` returns 4096 and the cursor becomes 0. -/
theorem malloc_accepts_overflowing_request :
    align16 (2 ^ 64 - 1) = 0 ∧
    (malloc demo_arena (memory_init demo_arena) (2 ^ 64 - 1)).1 = 4096 ∧
    (malloc demo_arena (memory_init demo_arena) (2 ^ 64 - 1)).2.heap_current = 4096 ∧
    (malloc demo_arena (memory_init demo_arena) (2 ^ 64 - 1)).2.total_allocated = 0 ∧
    align16 (2 ^ 64 - 4096) = 2 ^ 64 - 4096 ∧
    (malloc demo_arena (memory_init demo_arena) (2 ^ 64 - 4096)).1 = 4096 ∧
    (malloc demo_arena (memory_init demo_arena) (2 ^ 64 - 4096)).2.heap_current = 0 :=
  ⟨by decide, by decide, by decide, by decide, by decide, by decide, by decide⟩

/-- C14 (failing input): on the arena [4096, 8192), `malloc(16)` moves the
cursor to 4112 with 16 bytes counted; the following `malloc(2^64 - 16)`
succeeds, moves the cursor back to 4096 and the counter back to 0; a third
`malloc(16)` then returns the block of the first call again.  After
`malloc(16)`, `malloc(2^64 - 32)` leaves the cursor at 4080, below the start
of the arena. -/
theorem malloc_cursor_moves_back :
    demo_arena.heap_start ≤ demo_arena.heap_end ∧
    (malloc demo_arena (memory_init demo_arena) 16).1 = 4096 ∧
    (malloc demo_arena (memory_init demo_arena) 16).2.heap_current = 4112 ∧
    (malloc demo_arena (memory_init demo_arena) 16).2.total_allocated = 16 ∧
    (malloc demo_arena (malloc demo_arena (memory_init demo_arena) 16).2 (2 ^ 64 - 16)).1
      = 4112 ∧
    (malloc demo_arena (malloc demo_arena (memory_init demo_arena) 16).2
      (2 ^ 64 - 16)).2.heap_current = 4096 ∧
    (malloc demo_arena (malloc demo_arena (memory_init demo_arena) 16).2
      (2 ^ 64 - 16)).2.total_allocated = 0 ∧
    (malloc demo_arena
      (malloc demo_arena (malloc demo_arena (memory_init demo_arena) 16).2 (2 ^ 64 - 16)).2
      16).1 = 4096 ∧
    (malloc demo_arena (malloc demo_arena (memory_init demo_arena) 16).2
      (2 ^ 64 - 32)).2.heap_current = 4080 ∧
    (malloc demo_arena (malloc demo_arena (memory_init demo_arena) 16).2
      (2 ^ 64 - 32)).2.heap_current < demo_arena.heap_start :=
  ⟨by decide, by decide, by decide, by decide, by decide, by decide, by decide, by decide,
    by decide, by decide⟩

/-- C15 (failing input): on the exhausted 16-byte arena [4096, 4112) the
request `malloc(2^64 - 1)` succeeds: it returns the non-null pointer 4112,
which is the end of the arena, and advances the cursor by 0 bytes, which is
less than the requested size. -/
theorem malloc_block_too_small :
    tiny_one_file.heap.heap_current = tiny_arena.heap_end ∧
    (malloc tiny_arena tiny_one_file.heap (2 ^ 64 - 1)).1 = 4112 ∧
    (malloc tiny_arena tiny_one_file.heap (2 ^ 64 - 1)).2.heap_current -
      tiny_one_file.heap.heap_current = 0 ∧
    ¬ (2 ^ 64 - 1 ≤ (malloc tiny_arena tiny_one_file.heap (2 ^ 64 - 1)).2.heap_current -
      tiny_one_file.heap.heap_current) ∧
    ¬ ((malloc tiny_arena tiny_one_file.heap (2 ^ 64 - 1)).1 < tiny_arena.heap_end) :=
  ⟨by decide, by decide, by decide, by decide, by decide⟩

/-- C16: for every allocator state, `malloc(0)` returns `NULL` and leaves
`heap_current` and `total_allocated` unchanged, so the space that remains in
the arena is what it was. -/
theorem malloc_zero (a : Arena) (h : Heap) :
    (malloc a h 0).1 = 0 ∧ (malloc a h 0).2 = h ∧
    (malloc a h 0).2.heap_current = h.heap_current ∧
    (malloc a h 0).2.total_allocated = h.total_allocated ∧
    a.heap_end - (malloc a h 0).2.heap_current = a.heap_end - h.heap_current := by
  have hm : malloc a h 0 = (0, h) := by
    unfold malloc
    rw [if_pos rfl]
  rw [hm]
  exact ⟨rfl, rfl, rfl, rfl, rfl⟩

/-! ## Reclamation, listing, initialisation and cleared slots -/

theorem free_eq (h : Heap) (ptr : Nat) : free h ptr = h := rfl

theorem fs_delete_file_heap (s : State) (name : List Nat) :
    (fs_delete_file s name).2.heap = s.heap := by
  unfold fs_delete_file
  cases find_file s.files name <;> rfl

/-- In a state that satisfies the invariant, a call of `fs_write_file`
never lowers the allocation counter, and leaves it unchanged when the content
is empty. -/
theorem write_allocated_mono (a : Arena) (ha : a.WF) (s : State) (hI : Inv a s)
    (filename content : Option (List Nat)) :
    get_allocated_memory s.heap ≤
      get_allocated_memory (fs_write_file a s filename content).2.heap ∧
    (content_len content = 0 →
      get_allocated_memory (fs_write_file a s filename content).2.heap =
        get_allocated_memory s.heap) := by
  cases filename with
  | none => exact ⟨le_refl _, fun _ => rfl⟩
  | some filename =>
    rcases write_spec a ha s hI filename content with
      ⟨_, h⟩ | ⟨_, _, _, i, files, _, ⟨_, h⟩ | ⟨_, _, h⟩ | ⟨hpos, _, h⟩⟩
    · rw [h]; exact ⟨le_refl _, fun _ => rfl⟩
    · rw [h]; exact ⟨le_refl _, fun _ => rfl⟩
    · rw [h]; exact ⟨le_refl _, fun _ => rfl⟩
    · rw [h]
      refine ⟨?_, fun h0 => by omega⟩
      unfold get_allocated_memory
      simp only
      omega

/-- C17 (failing input): `free` and `fs_delete_file` leave the counter alone,
but the counter can decrease: with "a.txt" stored on the arena [4096, 8192),
`get_allocated_memory()` is 16; the allocator call `malloc(2^64 - 16)` then
succeeds (the pointer addition wraps) and `get_allocated_memory()` is 0. -/
theorem allocated_memory_decreases :
    Reachable demo_arena hi_state ∧
    get_allocated_memory hi_state.heap = 16 ∧
    get_allocated_memory (free hi_state.heap (fs_read_file hi_state [97, 46, 116, 120, 116]))
      = 16 ∧
    get_allocated_memory (fs_delete_file hi_state [97, 46, 116, 120, 116]).2.heap = 16 ∧
    (malloc demo_arena hi_state.heap (2 ^ 64 - 16)).1 = 4112 ∧
    get_allocated_memory (malloc demo_arena hi_state.heap (2 ^ 64 - 16)).2 = 0 :=
  ⟨Reachable.write _ _ _ (Reachable.init _ _), by decide, by decide, by decide, by decide,
    by decide⟩

/-- C18: for every table state, `fs_list_files` invokes the callback for the
occupied slots and only for them, once each, in strictly ascending order of
slot index, with the name and size of the slot; the number of invocations is
`fs_get_file_count()`. -/
theorem list_files_order (s : State) :
    ∃ idx : List Nat,
      idx.Sorted (· < ·) ∧ idx.Nodup ∧
      (∀ i, i ∈ idx ↔ i < MAX_FILES ∧ (s.files i).in_use = true) ∧
      fs_list_files s = idx.map (fun i => ((s.files i).name, (s.files i).size)) ∧
      ((fs_list_files s).length : Int) = fs_get_file_count s := by
  have hsorted : ((List.range MAX_FILES).filter (fun i => (s.files i).in_use)).Sorted (· < ·) :=
    List.Sorted.filter _ (List.sorted_lt_range _)
  refine ⟨(List.range MAX_FILES).filter (fun i => (s.files i).in_use), hsorted,
    hsorted.nodup, ?_, rfl, ?_⟩
  · intro i
    rw [List.mem_filter, List.mem_range]
  · unfold fs_list_files fs_get_file_count
    rw [List.length_map, List.countP_eq_length_filter]

/-- C19: after `fs_init()`, whatever the table held before, every slot is
unoccupied with an empty name, a null content and size 0, so
`fs_get_file_count()` is 0 and, for every name, `fs_file_exists` is 0 and
`fs_read_file` returns `NULL`. -/
theorem fs_init_clears (files0 : Nat → file_t) (heap : Heap) (mem : Nat → Nat) :
    (∀ i, i < MAX_FILES →
      (fs_init files0 i).in_use = false ∧ cstr (fs_init files0 i).name = [] ∧
      (fs_init files0 i).content = 0 ∧ (fs_init files0 i).size = 0) ∧
    fs_get_file_count { files := fs_init files0, heap := heap, mem := mem } = 0 ∧
    ∀ name,
      fs_file_exists { files := fs_init files0, heap := heap, mem := mem } name = 0 ∧
      fs_read_file { files := fs_init files0, heap := heap, mem := mem } name = 0 := by
  have hslot : ∀ i, i < MAX_FILES →
      fs_init files0 i =
        { name := (files0 i).name.set 0 0, content := 0, size := 0, in_use := false } := by
    intro i hi
    unfold fs_init
    rw [if_pos hi]
  have hnone : ∀ name, find_file (fs_init files0) name = none := by
    intro name
    rw [find_file_eq_none]
    intro j hj hu
    rw [hslot j hj] at hu
    cases hu
  refine ⟨fun i hi => ?_, ?_, fun name => ⟨?_, ?_⟩⟩
  · rw [hslot i hi]
    exact ⟨rfl, cstr_set_zero _, rfl, rfl⟩
  · unfold fs_get_file_count
    simp only
    rw [countP_range_congr (fun _ => false) _ _ (fun j hj => by rw [hslot j hj])]
    simp
  · rw [fs_file_exists_eq_zero]
    exact hnone name
  · unfold fs_read_file
    simp only
    rw [hnone name]

/-- Witness of `fs_init_clears`: re-initialising the table that holds
"a.txt" clears slot 0. -/
theorem fs_init_clears_witness :
    (hi_state.files 0).in_use = true ∧
    (fs_init hi_state.files 0).in_use = false ∧
    cstr (fs_init hi_state.files 0).name = [] ∧
    (fs_init hi_state.files 0).content = 0 ∧ (fs_init hi_state.files 0).size = 0 :=
  ⟨by decide, (fs_init_clears hi_state.files hi_state.heap hi_state.mem).1 0 (by decide)⟩

/-- C20 (failing input): on the exhausted 16-byte arena, the write of the new
name "b" fails in `malloc`; afterwards slot 1 is unoccupied but its name is
"b".  Likewise the failed overwrite of "a" leaves slot 0 unoccupied with the
name "a" and size 1. -/
theorem failed_write_leaves_stale_fields :
    Reachable tiny_arena (fs_write_file tiny_arena tiny_one_file (some [98]) (some [121])).2 ∧
    (fs_write_file tiny_arena tiny_one_file (some [98]) (some [121])).1 = -1 ∧
    ((fs_write_file tiny_arena tiny_one_file (some [98]) (some [121])).2.files 1).in_use
      = false ∧
    cstr ((fs_write_file tiny_arena tiny_one_file (some [98]) (some [121])).2.files 1).name
      = [98] ∧
    (fs_write_file tiny_arena tiny_one_file (some [97]) (some [121])).1 = -1 ∧
    ((fs_write_file tiny_arena tiny_one_file (some [97]) (some [121])).2.files 0).in_use
      = false ∧
    cstr ((fs_write_file tiny_arena tiny_one_file (some [97]) (some [121])).2.files 0).name
      = [97] ∧
    ((fs_write_file tiny_arena tiny_one_file (some [97]) (some [121])).2.files 0).size = 1 :=
  ⟨Reachable.write _ _ _ (Reachable.write _ _ _ (Reachable.init _ _)), by decide, by decide,
    by decide, by decide, by decide, by decide, by decide⟩

/-! ## Occupied slots, slot assignment and arena cost -/

/-- C21: in every reachable state, every occupied slot has a non-empty name
of at most 63 bytes, no other occupied slot has the same name, its size is 0
exactly when its content is the null buffer, its size is at most 4096, and a
non-null content is a string of exactly `size` bytes. -/
theorem occupied_slot_invariant (a : Arena) (ha : a.WF) (s : State) (hs : Reachable a s)
    (i : Nat) (hi : i < MAX_FILES) (hu : (s.files i).in_use = true) :
    0 < strlen (s.files i).name ∧ strlen (s.files i).name ≤ 63 ∧
    (∀ j, j < MAX_FILES → (s.files j).in_use = true → j ≠ i →
      cstr (s.files j).name ≠ cstr (s.files i).name) ∧
    ((s.files i).size = 0 ↔ (s.files i).content = 0) ∧
    (s.files i).size ≤ 4096 ∧
    ((s.files i).content ≠ 0 →
      StringAt s.mem (s.files i).content (s.files i).size ∧
      (string_at s (s.files i).content).length = (s.files i).size) := by
  have hI := hs.inv ha
  obtain ⟨h1, h2, h3⟩ := hI.slot_ok i hi hu
  unfold MAX_FILENAME_LEN at h2
  refine ⟨(cstr_ne_nil_iff _).1 h1, by omega, ?_, ?_, ?_, ?_⟩
  · intro j hj uj hji hn
    exact hji (hI.unique j i hj hi uj hu hn)
  · rcases h3 with ⟨c1, c2⟩ | ⟨c1, c2, _⟩
    · exact ⟨fun _ => c1, fun _ => c2⟩
    · exact ⟨fun h => by omega, fun h => absurd h c1⟩
  · rcases h3 with ⟨_, c2⟩ | ⟨_, _, c3, _⟩
    · omega
    · exact c3
  · intro hne
    rcases h3 with ⟨c1, _⟩ | ⟨_, _, c3, _, _, c6⟩
    · exact absurd c1 hne
    · exact ⟨c6, load_cstr_length _ _ _ _ c6 (by omega)⟩

/-- Witness of `occupied_slot_invariant`: slot 0 of the state that holds
"a.txt" with content "hi". -/
theorem occupied_slot_invariant_witness :
    demo_arena.WF ∧ Reachable demo_arena hi_state ∧ (hi_state.files 0).in_use = true ∧
    strlen (hi_state.files 0).name ≤ 63 ∧ (hi_state.files 0).size ≤ 4096 :=
  have hr : Reachable demo_arena hi_state := Reachable.write _ _ _ (Reachable.init _ _)
  have h := occupied_slot_invariant demo_arena (by decide) hi_state hr 0 (by decide)
    (by decide)
  ⟨by decide, hr, by decide, h.2.1, h.2.2.2.2.1⟩

theorem filter_range_getElem? (p : Nat → Bool) (n k : Nat) (hk : k < n)
    (hp : ∀ j, j ≤ k → p j = true) : ((List.range n).filter p)[k]? = some k := by
  have hn : n = (k + 1) + (n - (k + 1)) := by omega
  rw [hn, List.range_add, List.filter_append]
  have hall : (List.range (k + 1)).filter p = List.range (k + 1) := by
    rw [List.filter_eq_self]
    intro j hj
    rw [List.mem_range] at hj
    exact hp j (by omega)
  rw [hall, List.getElem?_append_left (by simp)]
  simp

/-- Where a successful write of an absent name puts the file: in the first
unoccupied slot, which is also its position in the listing. -/
theorem new_file_slot (a : Arena) (ha : a.WF) (s : State) (hI : Inv a s) (name : List Nat)
    (content : Option (List Nat)) (habsent : find_file s.files name = none)
    (hok : (fs_write_file a s (some name) content).1 = 0) :
    ∃ k, k < MAX_FILES ∧ (s.files k).in_use = false ∧
      (∀ j, j < k → (s.files j).in_use = true) ∧
      find_file (fs_write_file a s (some name) content).2.files name = some k ∧
      (∀ j, j ≠ k → (fs_write_file a s (some name) content).2.files j = s.files j) ∧
      cstr ((fs_write_file a s (some name) content).2.files k).name = cstr name ∧
      (fs_list_files (fs_write_file a s (some name) content).2)[k]? =
        some (((fs_write_file a s (some name) content).2.files k).name,
          ((fs_write_file a s (some name) content).2.files k).size) := by
  obtain ⟨_, v2, _, k, files, hst, h⟩ := write_ok_spec a ha s hI name content hok
  obtain ⟨hk, _, huse, hname, _, _, huniq, hkind⟩ := stage_spec a s hI name v2 k files hst
  have hfree : find_free_slot s.files = some k ∧ (s.files k).in_use = false := by
    rcases hkind with ⟨hf, _⟩ | ⟨_, hfs, hfree⟩
    · rw [habsent] at hf; cases hf
    · exact ⟨hfs, hfree⟩
  have hlow := ((find_free_slot_eq_some _ _).1 hfree.1).2.2
  have key : ∀ g : file_t, g.in_use = true → cstr g.name = cstr name →
      find_file (Function.update s.files k g) name = some k ∧
      (∀ j, j ≠ k → (Function.update s.files k g) j = s.files j) ∧
      cstr ((Function.update s.files k g) k).name = cstr name ∧
      (fs_list_files { files := Function.update s.files k g, heap := s.heap, mem := s.mem })[k]?
        = some (((Function.update s.files k g) k).name, ((Function.update s.files k g) k).size)
      := by
    intro g hg hgn
    refine ⟨find_file_update_self _ _ _ _ hk hg hgn huniq,
      fun j hj => Function.update_noteq hj _ _, by rw [Function.update_same]; exact hgn, ?_⟩
    unfold fs_list_files
    simp only
    rw [List.getElem?_map, filter_range_getElem? _ _ _ hk]
    · rfl
    · intro j hj
      by_cases hjk : j = k
      · subst hjk; rw [Function.update_same]; exact hg
      · rw [Function.update_noteq hjk]; exact hlow j (by omega)
  rcases h with ⟨_, heq⟩ | ⟨_, _, heq⟩
  · rw [heq]
    obtain ⟨k1, k2, k3, k4⟩ := key { files k with content := 0, size := 0 } huse hname
    exact ⟨k, hk, hfree.2, hlow, k1, k2, k3, k4⟩
  · rw [heq]
    obtain ⟨k1, k2, k3, k4⟩ := key
      { files k with content := s.heap.heap_current, size := content_len content } huse hname
    exact ⟨k, hk, hfree.2, hlow, k1, k2, k3, k4⟩

/-- C22: in a reachable state, a successful `fs_write_file` of a name that is
not present places the file in the unoccupied slot with the smallest index,
changes no other slot, and the file is listed at the position of that index;
in particular, once the file in slot `i` is deleted while all lower slots are
occupied, a newly created name lands in slot `i` and at position `i` of the
listing. -/
theorem first_free_slot_assignment (a : Arena) (ha : a.WF) (s : State) (hs : Reachable a s)
    (name : List Nat) (content : Option (List Nat))
    (habsent : fs_file_exists s name = 0) :
    ((fs_write_file a s (some name) content).1 = 0 →
      ∃ k, k < MAX_FILES ∧ (s.files k).in_use = false ∧
        (∀ j, j < k → (s.files j).in_use = true) ∧
        find_file (fs_write_file a s (some name) content).2.files name = some k ∧
        (∀ j, j ≠ k → (fs_write_file a s (some name) content).2.files j = s.files j) ∧
        cstr ((fs_write_file a s (some name) content).2.files k).name = cstr name ∧
        (fs_list_files (fs_write_file a s (some name) content).2)[k]? =
          some (((fs_write_file a s (some name) content).2.files k).name,
            ((fs_write_file a s (some name) content).2.files k).size)) ∧
    (∀ victim i, find_file s.files victim = some i →
      (∀ j, j < i → (s.files j).in_use = true) →
      (fs_write_file a (fs_delete_file s victim).2 (some name) content).1 = 0 →
      find_file (fs_write_file a (fs_delete_file s victim).2 (some name) content).2.files name
        = some i ∧
      ∃ buf size,
        (fs_list_files (fs_write_file a (fs_delete_file s victim).2 (some name) content).2)[i]?
          = some (buf, size) ∧ cstr buf = cstr name) := by
  have hI := hs.inv ha
  rw [fs_file_exists_eq_zero] at habsent
  refine ⟨fun hok => new_file_slot a ha s hI name content habsent hok, ?_⟩
  intro victim i hvict hlow hok
  have hvi := (find_file_eq_some _ _ _).1 hvict
  have hI2 := inv_delete a s hI victim
  have hdel : fs_delete_file s victim =
      (0, { s with
        files := Function.update s.files i
          { name := (s.files i).name.set 0 0, content := 0, size := 0, in_use := false } }) := by
    unfold fs_delete_file
    rw [hvict]
  rw [hdel] at hI2 hok ⊢
  have habsent2 : find_file (Function.update s.files i
      { name := (s.files i).name.set 0 0, content := 0, size := 0, in_use := false }) name
      = none := by
    rw [find_file_update_other _ _ _ _ (fun hu hn => ?_) (fun hu => by cases hu)]
    · exact habsent
    · exact (find_file_eq_none _ _).1 habsent i hvi.1 hu hn
  obtain ⟨k, hk, hfree, hbelow, hfind, _, hname, hlist⟩ :=
    new_file_slot a ha _ hI2 name content habsent2 hok
  have hki : k = i := by
    simp only at hfree hbelow
    rcases Nat.lt_trichotomy k i with hlt | heq | hgt
    · have hne : k ≠ i := by omega
      rw [Function.update_noteq hne, hlow k hlt] at hfree
      cases hfree
    · exact heq
    · have := hbelow i hgt
      rw [Function.update_same] at this
      cases this
  subst hki
  exact ⟨hfind, _, _, hlist, hname⟩

/-- Witness of `first_free_slot_assignment`: with "a", "b", "c" in slots 0, 1,
2, deleting "b" and creating "d" puts "d" in slot 1, and the listing reads
"a", "d", "c". -/
theorem first_free_slot_assignment_witness :
    demo_arena.WF ∧ Reachable demo_arena abc_state ∧
    fs_file_exists abc_state [100] = 0 ∧
    find_file abc_state.files [98] = some 1 ∧
    (fs_write_file demo_arena (fs_delete_file abc_state [98]).2 (some [100])
      (some [120])).1 = 0 ∧
    find_file (fs_write_file demo_arena (fs_delete_file abc_state [98]).2 (some [100])
      (some [120])).2.files [100] = some 1 ∧
    (fs_list_files (fs_write_file demo_arena (fs_delete_file abc_state [98]).2 (some [100])
      (some [120])).2).map (fun e => cstr e.1) = [[97], [100], [99]] :=
  have hr : Reachable demo_arena abc_state :=
    Reachable.write _ _ _ (Reachable.write _ _ _ (Reachable.write _ _ _ (Reachable.init _ _)))
  have h := (first_free_slot_assignment demo_arena (by decide) abc_state hr [100]
    (some [120]) (by decide)).2 [98] 1 (by decide) (by decide) (by decide)
  ⟨by decide, hr, by decide, by decide, by decide, h.1, by decide⟩

/-- C23: in a reachable state, a successful `fs_write_file` of a content of
`n > 0` bytes leaves the allocator in the state that the single request
`malloc(n + 1)` produces, so `get_allocated_memory()` grows by exactly the
least multiple of 16 that is at least `n + 1`, for a new name and for an
overwrite alike; a write of an empty content, and a write that fails
validation or finds the table full, leave the allocator state unchanged. -/
theorem write_arena_cost (a : Arena) (ha : a.WF) (s : State) (hs : Reachable a s)
    (name : List Nat) (content : Option (List Nat)) :
    ((fs_write_file a s (some name) content).1 = 0 → 0 < content_len content →
      (fs_write_file a s (some name) content).2.heap =
        (malloc a s.heap (content_len content + 1)).2 ∧
      get_allocated_memory (fs_write_file a s (some name) content).2.heap =
        get_allocated_memory s.heap + (content_len content + 16) / 16 * 16 ∧
      16 ∣ (content_len content + 16) / 16 * 16 ∧
      content_len content + 1 ≤ (content_len content + 16) / 16 * 16 ∧
      ∀ m, 16 ∣ m → content_len content + 1 ≤ m →
        (content_len content + 16) / 16 * 16 ≤ m) ∧
    (content_len content = 0 → (fs_write_file a s (some name) content).2.heap = s.heap) ∧
    ((strlen name = 0 ∨ MAX_FILENAME_LEN ≤ strlen name ∨ MAX_FILE_SIZE < content_len content ∨
        (fs_file_exists s name = 0 ∧ ∀ j, j < MAX_FILES → (s.files j).in_use = true)) →
      fs_write_file a s (some name) content = (-1, s)) := by
  have hI := hs.inv ha
  refine ⟨fun hok hpos => ?_, fun h0 => ?_, fun hbad => ?_⟩
  · obtain ⟨_, _, v3, i, files, _, h⟩ := write_ok_spec a ha s hI name content hok
    rcases h with ⟨h0, _⟩ | ⟨_, hroom, heq⟩
    · omega
    · have hm : (malloc a s.heap (content_len content + 1)).2 =
          { heap_current := s.heap.heap_current + (content_len content + 16) / 16 * 16,
            total_allocated :=
              s.heap.total_allocated + (content_len content + 16) / 16 * 16 } := by
        rcases malloc_write a s ha hI _ v3 with ⟨hno, _⟩ | ⟨_, _, _, hc, ht⟩
        · omega
        · rw [← hc, ← ht]
      rw [heq, hm]
      refine ⟨rfl, rfl, Nat.dvd_mul_left _ _, by omega, ?_⟩
      rintro m ⟨c, rfl⟩ hm2
      omega
  · rcases write_spec a ha s hI name content with
      ⟨_, h⟩ | ⟨_, _, _, i, files, _, ⟨_, h⟩ | ⟨hpos, _, _⟩ | ⟨hpos, _, _⟩⟩
    · rw [h]
    · rw [h]
    · omega
    · omega
  · rcases write_spec a ha s hI name content with ⟨_, h⟩ | ⟨v1, v2, v3, i, files, hst, _⟩
    · exact h
    · exfalso
      rcases hbad with hb | hb | hb | ⟨hb1, hb2⟩
      · have := (cstr_ne_nil_iff _).1 v1
        omega
      · omega
      · omega
      · rw [fs_file_exists_eq_zero] at hb1
        obtain ⟨hi, _, _, _, _, _, _, hkind⟩ := stage_spec a s hI name v2 i files hst
        rcases hkind with ⟨hf, _⟩ | ⟨_, _, hfree⟩
        · rw [hf] at hb1; cases hb1
        · rw [hb2 i hi] at hfree; cases hfree

/-- Witness of `write_arena_cost`: writing "hi" (2 bytes, request of 3) after
boot raises the counter from 0 to 16. -/
theorem write_arena_cost_witness :
    demo_arena.WF ∧ Reachable demo_arena (boot_state demo_arena) ∧
    (fs_write_file demo_arena (boot_state demo_arena) (some [97]) (some [104, 105])).1 = 0 ∧
    get_allocated_memory (boot_state demo_arena).heap = 0 ∧
    get_allocated_memory
      (fs_write_file demo_arena (boot_state demo_arena) (some [97]) (some [104, 105])).2.heap
      = 16 :=
  have h := (write_arena_cost demo_arena (by decide) (boot_state demo_arena)
    (Reachable.init _ _) [97] (some [104, 105])).1 (by decide) (by decide)
  ⟨by decide, Reachable.init _ _, by decide, by decide, h.2.1.trans (by decide)⟩

/-! ## `calloc` -/

theorem memset_cell (mem : Nat → Nat) (p v n q : Nat) :
    memset mem p v n q = v % 256 ∨ memset mem p v n q = mem q := by
  induction n generalizing mem p with
  | zero => exact Or.inr rfl
  | succ n ih =>
    simp only [memset]
    rcases ih (Function.update mem p (v % 256)) ((p + 1) % SIZE_MOD) with h | h
    · exact Or.inl h
    · by_cases hq : q = p
      · subst hq
        left
        rw [h, Function.update_same]
      · right
        rw [h, Function.update_noteq hq]

theorem memset_fills (mem : Nat → Nat) (p v n k : Nat) (hp : p < SIZE_MOD) (hk : k < n) :
    memset mem p v n ((p + k) % SIZE_MOD) = v % 256 := by
  induction n generalizing mem p k with
  | zero => omega
  | succ n ih =>
    simp only [memset]
    cases k with
    | zero =>
      have e : (p + 0) % SIZE_MOD = p := by
        rw [Nat.add_zero]; exact Nat.mod_eq_of_lt hp
      rw [e]
      rcases memset_cell (Function.update mem p (v % 256)) ((p + 1) % SIZE_MOD) v n p with
        h | h
      · exact h
      · rw [h, Function.update_same]
    | succ k =>
      have hidx : (p + (k + 1)) % SIZE_MOD = ((p + 1) % SIZE_MOD + k) % SIZE_MOD := by
        rw [Nat.mod_add_mod]
        congr 1
        omega
      rw [hidx]
      exact ih _ _ _ (Nat.mod_lt _ (by unfold SIZE_MOD; norm_num)) (by omega)

/-- What `calloc` returns when it returns: the pointer and the allocator
state of `malloc(total)` for `total = count * size` modulo `2^64`; `NULL`
exactly when that `malloc` returns `NULL`, then with memory untouched; and
for a non-null pointer the `total` bytes from the pointer on are zero. -/
theorem calloc_some_spec (a : Arena) (h : Heap) (mem : Nat → Nat) (count size : Nat)
    (hp : h.heap_current < SIZE_MOD) (p : Nat) (h2 : Heap) (mem2 : Nat → Nat)
    (hres : calloc a h mem count size = some (p, h2, mem2)) :
    p = (malloc a h (count * size % SIZE_MOD)).1 ∧
    h2 = (malloc a h (count * size % SIZE_MOD)).2 ∧
    (p = 0 → mem2 = mem) ∧
    (p ≠ 0 → a.heap_start ≤ p ∧ p + count * size % SIZE_MOD ≤ a.heap_end ∧
      ∀ k, k < count * size % SIZE_MOD → mem2 ((p + k) % SIZE_MOD) = 0) := by
  have hptr : (malloc a h (count * size % SIZE_MOD)).1 < SIZE_MOD := by
    have hpos : 0 < SIZE_MOD := by unfold SIZE_MOD; norm_num
    unfold malloc
    by_cases h0 : count * size % SIZE_MOD = 0
    · rw [if_pos h0]; exact hpos
    · rw [if_neg h0]
      dsimp only
      by_cases h1 : (h.heap_current + align16 (count * size % SIZE_MOD)) % SIZE_MOD > a.heap_end
      · rw [if_pos h1]; exact hpos
      · rw [if_neg h1]; exact hp
  unfold calloc at hres
  simp only at hres
  by_cases hm : (malloc a h (count * size % SIZE_MOD)).1 = 0
  · rw [if_neg (by simpa using hm)] at hres
    obtain ⟨rfl, rfl, rfl⟩ : (malloc a h (count * size % SIZE_MOD)).1 = p ∧
        (malloc a h (count * size % SIZE_MOD)).2 = h2 ∧ mem = mem2 := by
      simpa using hres
    exact ⟨rfl, rfl, fun _ => rfl, fun hne => absurd hm hne⟩
  · rw [if_pos hm] at hres
    by_cases hin : a.heap_start ≤ (malloc a h (count * size % SIZE_MOD)).1 ∧
        (malloc a h (count * size % SIZE_MOD)).1 + count * size % SIZE_MOD ≤ a.heap_end
    · rw [if_pos hin] at hres
      obtain ⟨rfl, rfl, rfl⟩ : (malloc a h (count * size % SIZE_MOD)).1 = p ∧
          (malloc a h (count * size % SIZE_MOD)).2 = h2 ∧
          memset mem (malloc a h (count * size % SIZE_MOD)).1 0 (count * size % SIZE_MOD)
            = mem2 := by
        simpa using hres
      exact ⟨rfl, rfl, fun h0 => absurd h0 hm,
        fun _ => ⟨hin.1, hin.2, fun k hk => memset_fills _ _ 0 _ _ hptr hk⟩⟩
    · rw [if_neg hin] at hres
      cases hres

/-- A request for which neither the rounding nor the pointer addition of
`malloc` exceeds 64 bits makes `calloc` return: `NULL` when the rounded
request does not fit, otherwise the old cursor. -/
theorem calloc_returns_of_fit (a : Arena) (h : Heap) (mem : Nat → Nat) (count size : Nat)
    (hlo : a.heap_start ≤ h.heap_current)
    (h1 : count * size % SIZE_MOD + 15 < SIZE_MOD)
    (h2 : h.heap_current + (count * size % SIZE_MOD + 15) / 16 * 16 < SIZE_MOD) :
    (calloc a h mem count size).isSome = true := by
  unfold calloc
  simp only
  by_cases hm : (malloc a h (count * size % SIZE_MOD)).1 = 0
  · rw [if_neg (by simpa using hm)]
    rfl
  · rw [if_pos hm]
    have hpos : 0 < count * size % SIZE_MOD := by
      by_contra h0
      have hz : count * size % SIZE_MOD = 0 := by omega
      apply hm
      rw [hz]
      unfold malloc
      rw [if_pos rfl]
    obtain ⟨s1, s2⟩ := malloc_step a h _ hpos h1 h2
    by_cases hfit : h.heap_current + (count * size % SIZE_MOD + 15) / 16 * 16 ≤ a.heap_end
    · have hmal := s2 hfit
      rw [hmal]
      rw [if_pos ⟨hlo, by simp only; omega⟩]
      rfl
    · have hmal := s1 (by omega)
      rw [hmal] at hm
      exact absurd rfl hm

/-- C24 (failing input): right after `memory_init` on the arena [4096, 8192),
`calloc(1, 2^64 - 1)` computes `total = 2^64 - 1`; `malloc(total)` returns
the non-null pointer 4096 without advancing the cursor, a block of 0 bytes;
`memset` of `total` bytes from 4096 on then leaves the arena, and `calloc`
does not return.  By contrast `calloc(2, 8)` returns 4096 with the 16 bytes
zeroed. -/
theorem calloc_overruns_arena :
    1 * (2 ^ 64 - 1) % SIZE_MOD = 2 ^ 64 - 1 ∧
    (malloc demo_arena (memory_init demo_arena) (2 ^ 64 - 1)).1 = 4096 ∧
    (malloc demo_arena (memory_init demo_arena) (2 ^ 64 - 1)).2.heap_current = 4096 ∧
    ¬ (4096 + (2 ^ 64 - 1) ≤ demo_arena.heap_end) ∧
    (calloc demo_arena (memory_init demo_arena) (fun _ => 1) 1 (2 ^ 64 - 1)).isNone = true ∧
    (calloc demo_arena (memory_init demo_arena) (fun _ => 1) 2 8).isSome = true ∧
    ((calloc demo_arena (memory_init demo_arena) (fun _ => 1) 2 8).map (fun r => r.1))
      = some 4096 ∧
    ((calloc demo_arena (memory_init demo_arena) (fun _ => 1) 2 8).map
      (fun r => (r.2.2 4096, r.2.2 4111, r.2.2 4112))) = some (0, 0, 1) :=
  ⟨by decide, by decide, by decide, by decide, by decide, by decide, by decide, by decide⟩

/-! ## The command tokenizer -/

theorem is_blank_iff (c : Nat) : is_blank c = true ↔ c = 32 ∨ c = 9 := by
  simp [is_blank]

theorem is_blank_zero : is_blank 0 = false := by decide

theorem skip_blanks_spec (pre rest : List Nat) :
    ∃ blks rest1, skip_blanks pre rest = (blks.reverse ++ pre, rest1) ∧
      rest = blks ++ rest1 ∧ (∀ c ∈ blks, is_blank c = true) ∧
      is_blank (rest1.headD 0) = false := by
  induction rest generalizing pre with
  | nil => exact ⟨[], [], rfl, rfl, by simp, is_blank_zero⟩
  | cons c rest ih =>
    by_cases hc : is_blank c = true
    · obtain ⟨blks, rest1, h1, h2, h3, h4⟩ := ih (c :: pre)
      refine ⟨c :: blks, rest1, ?_, by rw [h2]; rfl, ?_, h4⟩
      · simp only [skip_blanks, hc, if_true, h1, List.reverse_cons, List.append_assoc,
          List.singleton_append]
      · intro d hd
        rcases List.mem_cons.1 hd with rfl | hd
        · exact hc
        · exact h3 d hd
    · refine ⟨[], c :: rest, ?_, rfl, by simp, ?_⟩
      · simp only [skip_blanks, hc, List.reverse_nil, List.nil_append]
        rfl
      · simpa using hc

theorem skip_token_spec (pre rest : List Nat) :
    ∃ t rest1, skip_token pre rest = (t.reverse ++ pre, rest1) ∧
      rest = t ++ rest1 ∧ (∀ c ∈ t, c ≠ 0 ∧ is_blank c = false) ∧
      (rest1.headD 0 = 0 ∨ is_blank (rest1.headD 0) = true) ∧
      (rest.headD 0 ≠ 0 → is_blank (rest.headD 0) = false → t ≠ []) := by
  induction rest generalizing pre with
  | nil => exact ⟨[], [], rfl, rfl, by simp, Or.inl rfl, fun h => absurd rfl h⟩
  | cons c rest ih =>
    by_cases hc : c ≠ 0 ∧ is_blank c = false
    · obtain ⟨t, rest1, h1, h2, h3, h4, _⟩ := ih (c :: pre)
      refine ⟨c :: t, rest1, ?_, by rw [h2]; rfl, ?_, h4, fun _ _ => by simp⟩
      · simp only [skip_token, hc, and_self, if_true, h1, List.reverse_cons, List.append_assoc,
          List.singleton_append, ne_eq, not_false_eq_true]
      · intro d hd
        rcases List.mem_cons.1 hd with rfl | hd
        · exact hc
        · exact h3 d hd
    · refine ⟨[], c :: rest, ?_, rfl, by simp, ?_, ?_⟩
      · simp only [skip_token, List.reverse_nil, List.nil_append]
        rw [if_neg hc]
      · simp only [List.headD_cons]
        by_cases h0 : c = 0
        · exact Or.inl h0
        · right
          by_contra hb
          exact hc ⟨h0, by simpa using hb⟩
      · intro h0 hb
        exact absurd ⟨by simpa using h0, by simpa using hb⟩ hc

theorem cstr_append_of_nul_free (t rest : List Nat) (h : ∀ c ∈ t, c ≠ 0) :
    cstr (t ++ rest) = t ++ cstr rest := by
  induction t with
  | nil => rfl
  | cons c t ih =>
    have hc : c ≠ 0 := h c (by simp)
    show cstr (c :: (t ++ rest)) = c :: (t ++ cstr rest)
    simp only [cstr, hc, if_false]
    rw [ih (fun d hd => h d (by simp [hd]))]

theorem cstr_eq_nil_of_head (rest : List Nat) (h : rest.headD 0 = 0) : cstr rest = [] :=
  (headD_eq_zero_iff rest).1 h

theorem blank_ne_zero (c : Nat) (h : is_blank c = true) : c ≠ 0 := by
  rintro rfl
  rw [is_blank_zero] at h
  cases h

theorem runs_of_nil : runs_of [] = [] := by
  simp [runs_of]

theorem runs_of_cons_blank (b : Nat) (s : List Nat) (hb : is_blank b = true) :
    runs_of (b :: s) = runs_of s := by
  simp [runs_of, hb]

theorem runs_of_blanks_append (blks s : List Nat) (h : ∀ c ∈ blks, is_blank c = true) :
    runs_of (blks ++ s) = runs_of s := by
  induction blks with
  | nil => rfl
  | cons b blks ih =>
    rw [List.cons_append, runs_of_cons_blank _ _ (h b (by simp))]
    exact ih (fun c hc => h c (by simp [hc]))

theorem runs_of_token_blank (t : List Nat) (b : Nat) (s : List Nat) (ht : t ≠ [])
    (hnb : ∀ c ∈ t, is_blank c = false) (hb : is_blank b = true) :
    runs_of (t ++ b :: s) = t :: runs_of s := by
  unfold runs_of
  rw [List.splitOnP_first is_blank t (fun c hc => by rw [hnb c hc]; simp) b hb s]
  rw [List.filter_cons_of_pos]
  cases t with
  | nil => exact absurd rfl ht
  | cons _ _ => rfl

theorem runs_of_token (t : List Nat) (ht : t ≠ []) (hnb : ∀ c ∈ t, is_blank c = false) :
    runs_of t = [t] := by
  unfold runs_of
  rw [List.splitOnP_eq_single is_blank t (fun c hc => by rw [hnb c hc]; simp)]
  cases t with
  | nil => exact absurd rfl ht
  | cons _ _ => rfl

theorem parse_loop_stop (fuel : Nat) (pre rest argv : List Nat) (h : rest.headD 0 = 0) :
    parse_loop fuel pre rest argv = (argv, pre, rest) := by
  cases fuel with
  | zero => rfl
  | succ fuel =>
    unfold parse_loop
    rw [if_neg (fun hc => hc.1 h)]

theorem maximal_runs_of_head_zero (rest : List Nat) (h : rest.headD 0 = 0) :
    maximal_runs rest = [] := by
  unfold maximal_runs
  rw [cstr_eq_nil_of_head rest h, runs_of_nil]

/-- Invariant of the main loop of `parse_command`: started at a byte that is
not a blank, with enough fuel, it appends to `argv` offsets at or after the
current position, leaves the bytes before the current position alone, and
the strings at the new offsets in the final buffer are the first maximal
runs of what was left of the line, as many as `argv` still has room for. -/
theorem parse_loop_spec (fuel : Nat) (pre rest argv : List Nat) (hfuel : rest.length < fuel)
    (hhead : is_blank (rest.headD 0) = false) :
    ∃ offs suffix,
      (parse_loop fuel pre rest argv).1 = argv ++ offs ∧
      (parse_loop fuel pre rest argv).2.1.reverse ++ (parse_loop fuel pre rest argv).2.2 =
        pre.reverse ++ suffix ∧
      (∀ o ∈ offs, pre.length ≤ o) ∧
      offs.map (fun o => cstr (suffix.drop (o - pre.length))) =
        (maximal_runs rest).take (MAX_ARGS - argv.length) := by
  induction fuel generalizing pre rest argv with
  | zero => omega
  | succ fuel ih =>
    unfold parse_loop
    by_cases hcond : rest.headD 0 ≠ 0 ∧ argv.length < MAX_ARGS
    · rw [if_pos hcond]
      obtain ⟨t, rest1, ht, hsplit, htok, hend, hne⟩ := skip_token_spec pre rest
      have htne : t ≠ [] := hne hcond.1 hhead
      have htlen : 0 < t.length := List.length_pos.2 htne
      have hroom : MAX_ARGS - argv.length = (MAX_ARGS - (argv ++ [pre.length]).length) + 1 := by
        rw [List.length_append, List.length_singleton]
        omega
      simp only [ht]
      by_cases hz : rest1.headD 0 = 0
      · rw [if_neg (by simpa using hz), parse_loop_stop _ _ _ _ hz]
        refine ⟨[pre.length], rest, ?_, ?_, ?_, ?_⟩
        · rfl
        · simp only
          rw [List.reverse_append, List.reverse_reverse, List.append_assoc, ← hsplit]
        · intro o ho
          rw [List.mem_singleton.1 ho]
        · simp only [List.map_cons, List.map_nil, Nat.sub_self, List.drop_zero]
          have hrun : maximal_runs rest = [t] := by
            unfold maximal_runs
            rw [hsplit, cstr_append_of_nul_free _ _ (fun c hc => (htok c hc).1),
              cstr_eq_nil_of_head _ hz, List.append_nil]
            exact runs_of_token t htne (fun c hc => (htok c hc).2)
          rw [hrun, hroom, List.take_succ_cons, List.take_nil]
          congr 1
          rw [hsplit, cstr_append_of_nul_free _ _ (fun c hc => (htok c hc).1),
            cstr_eq_nil_of_head _ hz, List.append_nil]
      · rw [if_pos (by simpa using hz)]
        have hb : is_blank (rest1.headD 0) = true := hend.resolve_left hz
        cases rest1 with
        | nil => exact absurd rfl hz
        | cons b rest2 =>
          simp only [List.headD_cons] at hb
          simp only [List.tail_cons]
          obtain ⟨blks, rest3, hbl, hsplit2, hblk, hhead3⟩ :=
            skip_blanks_spec (0 :: (t.reverse ++ pre)) rest2
          simp only [hbl]
          have hlen : rest.length = t.length + (1 + (blks.length + rest3.length)) := by
            rw [hsplit, hsplit2]
            simp only [List.length_append, List.length_cons]
            omega
          obtain ⟨offs2, suffix2, h1, h2, h3, h4⟩ :=
            ih (blks.reverse ++ 0 :: (t.reverse ++ pre)) rest3 (argv ++ [pre.length])
              (by omega) hhead3
          have hpre2 : (blks.reverse ++ 0 :: (t.reverse ++ pre)).length =
              pre.length + (t.length + 1 + blks.length) := by
            simp only [List.length_append, List.length_cons, List.length_reverse]
            omega
          refine ⟨pre.length :: offs2, t ++ 0 :: (blks ++ suffix2), ?_, ?_, ?_, ?_⟩
          · rw [h1, List.append_assoc]
            rfl
          · rw [h2]
            simp only [List.reverse_append, List.reverse_cons, List.reverse_reverse,
              List.append_assoc, List.singleton_append, List.cons_append, List.nil_append]
          · intro o ho
            rcases List.mem_cons.1 ho with rfl | ho
            · exact le_refl _
            · have := h3 o ho
              omega
          · have hrun : maximal_runs rest = t :: maximal_runs rest3 := by
              unfold maximal_runs
              rw [hsplit, hsplit2, cstr_append_of_nul_free _ _ (fun c hc => (htok c hc).1)]
              have hbz : b ≠ 0 := blank_ne_zero b hb
              have hcb : cstr (b :: (blks ++ rest3)) = b :: (blks ++ cstr rest3) := by
                simp only [cstr, hbz, if_false]
                rw [cstr_append_of_nul_free _ _ (fun c hc => blank_ne_zero c (hblk c hc))]
              rw [hcb, runs_of_token_blank t b _ htne (fun c hc => (htok c hc).2) hb,
                runs_of_blanks_append _ _ hblk]
            rw [hrun, hroom, List.take_succ_cons, ← h4, List.map_cons]
            congr 1
            · simp only [Nat.sub_self, List.drop_zero]
              rw [cstr_append_of_nul_free _ _ (fun c hc => (htok c hc).1)]
              simp [cstr]
            · apply List.map_congr_left
              intro o ho
              have hge := h3 o ho
              rw [hpre2] at hge
              have hidx : o - pre.length =
                  (t ++ 0 :: blks).length +
                    (o - (blks.reverse ++ 0 :: (t.reverse ++ pre)).length) := by
                rw [hpre2]
                simp only [List.length_append, List.length_cons]
                omega
              have happ : t ++ 0 :: (blks ++ suffix2) = (t ++ 0 :: blks) ++ suffix2 := by
                simp
              rw [hidx, happ, List.drop_append]
    · rw [if_neg hcond]
      refine ⟨[], rest, by simp, rfl, by simp, ?_⟩
      simp only [List.map_nil]
      by_cases hz : rest.headD 0 = 0
      · rw [maximal_runs_of_head_zero _ hz, List.take_nil]
      · have : MAX_ARGS - argv.length = 0 := by
          have : ¬ argv.length < MAX_ARGS := fun h => hcond ⟨hz, h⟩
          omega
        rw [this, List.take_zero]

theorem runs_of_mem (s : List Nat) :
    ∀ w ∈ runs_of s, w ≠ [] ∧ ∀ c ∈ w, is_blank c = false := by
  have hpieces : ∀ s : List Nat, ∀ w ∈ s.splitOnP is_blank, ∀ c ∈ w, is_blank c = false := by
    intro s
    induction s with
    | nil =>
      intro w hw c hc
      rw [List.splitOnP_nil, List.mem_singleton] at hw
      subst hw
      cases hc
    | cons x xs ih =>
      intro w hw c hc
      rw [List.splitOnP_cons] at hw
      by_cases hx : is_blank x = true
      · rw [if_pos hx] at hw
        rcases List.mem_cons.1 hw with rfl | hw
        · cases hc
        · exact ih w hw c hc
      · rw [if_neg hx] at hw
        cases hsp : List.splitOnP is_blank xs with
        | nil => exact absurd hsp (List.splitOnP_ne_nil _ _)
        | cons h tl =>
          rw [hsp] at hw ih
          simp only [List.modifyHead_cons] at hw
          rcases List.mem_cons.1 hw with rfl | hw
          · rcases List.mem_cons.1 hc with rfl | hc
            · simpa using hx
            · exact ih h (by simp) c hc
          · exact ih w (by simp [hw]) c hc
  intro w hw
  unfold runs_of at hw
  rw [List.mem_filter] at hw
  refine ⟨?_, hpieces s w hw.1⟩
  rintro rfl
  simp at hw

theorem runs_of_eq_nil_iff (s : List Nat) :
    runs_of s = [] ↔ ∀ c ∈ s, is_blank c = true := by
  constructor
  · intro h
    induction s with
    | nil => simp
    | cons x xs ih =>
      by_cases hx : is_blank x = true
      · rw [runs_of_cons_blank _ _ hx] at h
        intro c hc
        rcases List.mem_cons.1 hc with rfl | hc
        · exact hx
        · exact ih h c hc
      · exfalso
        unfold runs_of at h
        rw [List.splitOnP_cons, if_neg hx] at h
        cases hsp : List.splitOnP is_blank xs with
        | nil => exact absurd hsp (List.splitOnP_ne_nil _ _)
        | cons hd tl =>
          rw [hsp] at h
          simp at h
  · intro h
    have := runs_of_blanks_append s [] h
    rw [List.append_nil] at this
    rw [this, runs_of_nil]

/-- The arguments found by `parse_command` are the first `MAX_ARGS` maximal
runs of non-blank characters of the line, and `argc` is their number. -/
theorem parsed_args_eq (cmd : List Nat) :
    parsed_args cmd = (maximal_runs cmd).take MAX_ARGS ∧
    (parse_command cmd).1 = (parsed_args cmd).length := by
  obtain ⟨blks, rest, hb, hsplit, hblk, hhead⟩ := skip_blanks_spec [] cmd
  have hlen : rest.length < cmd.length + 1 := by
    rw [hsplit, List.length_append]
    omega
  obtain ⟨offs, suffix, h1, h2, h3, h4⟩ :=
    parse_loop_spec (cmd.length + 1) (blks.reverse ++ []) rest [] hlen hhead
  have hruns : maximal_runs cmd = maximal_runs rest := by
    unfold maximal_runs
    rw [hsplit, cstr_append_of_nul_free _ _ (fun c hc => blank_ne_zero c (hblk c hc)),
      runs_of_blanks_append _ _ hblk]
  have hargv : (parse_command cmd).2.1 = offs := by
    unfold parse_command
    simp only [hb]
    rw [h1, List.nil_append]
  have hbuf : (parse_command cmd).2.2 = blks ++ suffix := by
    unfold parse_command
    simp only [hb]
    rw [h2]
    simp
  have hargc : (parse_command cmd).1 = offs.length := by
    unfold parse_command
    simp only [hb]
    rw [h1, List.nil_append]
  constructor
  · unfold parsed_args
    rw [hargv, hbuf, hruns]
    simp only [List.length_nil, Nat.sub_zero] at h4
    rw [← h4]
    apply List.map_congr_left
    intro o ho
    have hge := h3 o ho
    simp only [List.append_nil, List.length_reverse] at hge
    have hidx : o = blks.length + (o - blks.length) := by omega
    simp only [List.append_nil, List.length_reverse]
    conv_lhs => rw [hidx]
    rw [List.drop_append]
  · unfold parsed_args
    rw [List.length_map, hargv, hargc]

theorem splitOnP_subset (s : List Nat) :
    ∀ w ∈ s.splitOnP is_blank, ∀ c ∈ w, c ∈ s := by
  induction s with
  | nil =>
    intro w hw c hc
    rw [List.splitOnP_nil, List.mem_singleton] at hw
    subst hw
    cases hc
  | cons x xs ih =>
    intro w hw c hc
    rw [List.splitOnP_cons] at hw
    by_cases hx : is_blank x = true
    · rw [if_pos hx] at hw
      rcases List.mem_cons.1 hw with rfl | hw
      · cases hc
      · exact List.mem_cons_of_mem _ (ih w hw c hc)
    · rw [if_neg hx] at hw
      cases hsp : List.splitOnP is_blank xs with
      | nil => exact absurd hsp (List.splitOnP_ne_nil _ _)
      | cons h tl =>
        rw [hsp] at hw ih
        simp only [List.modifyHead_cons] at hw
        rcases List.mem_cons.1 hw with rfl | hw
        · rcases List.mem_cons.1 hc with rfl | hc
          · exact List.mem_cons_self _ _
          · exact List.mem_cons_of_mem _ (ih h (by simp) c hc)
        · exact List.mem_cons_of_mem _ (ih w (by simp [hw]) c hc)

/-- C25: for every NUL-terminated command line, `parse_command` returns an
`argc` of at most 16 (`MAX_ARGS`); `argv[0 .. argc-1]` point to non-empty
strings without space, tab (or NUL); these strings are the first `argc`
maximal runs of non-space, non-tab characters of the line, in order, `argc`
being the number of such runs capped at 16; and `argc` is 0 exactly when the
line consists of spaces and tabs only (or is empty). -/
theorem parse_command_tokens (cmd : List Nat) :
    (parse_command cmd).1 ≤ MAX_ARGS ∧
    (parsed_args cmd).length = (parse_command cmd).1 ∧
    (∀ w ∈ parsed_args cmd, w ≠ [] ∧ ∀ c ∈ w, c ≠ 32 ∧ c ≠ 9 ∧ c ≠ 0) ∧
    parsed_args cmd = (maximal_runs cmd).take (parse_command cmd).1 ∧
    (parse_command cmd).1 = min MAX_ARGS (maximal_runs cmd).length ∧
    ((parse_command cmd).1 = 0 ↔ ∀ c ∈ cstr cmd, c = 32 ∨ c = 9) := by
  obtain ⟨hargs, hargc⟩ := parsed_args_eq cmd
  have hmin : (parse_command cmd).1 = min MAX_ARGS (maximal_runs cmd).length := by
    rw [hargc, hargs, List.length_take]
  have htake : (maximal_runs cmd).take (parse_command cmd).1 =
      (maximal_runs cmd).take MAX_ARGS := by
    rw [hmin]
    rcases Nat.le_total MAX_ARGS (maximal_runs cmd).length with h | h
    · rw [Nat.min_eq_left h]
    · rw [Nat.min_eq_right h, List.take_length, List.take_of_length_le h]
  refine ⟨by rw [hmin]; exact Nat.min_le_left _ _, hargc.symm, ?_, by rw [htake]; exact hargs,
    hmin, ?_⟩
  · intro w hw
    rw [hargs] at hw
    have hmem := List.mem_of_mem_take hw
    obtain ⟨hne, hnb⟩ := runs_of_mem _ w hmem
    refine ⟨hne, fun c hc => ?_⟩
    have hb := hnb c hc
    have hnot : ¬ (c = 32 ∨ c = 9) := by
      rw [← is_blank_iff, hb]
      simp
    have hnul : c ≠ 0 := by
      unfold maximal_runs runs_of at hmem
      rw [List.mem_filter] at hmem
      exact cstr_nul_free cmd c (splitOnP_subset _ w hmem.1 c hc)
    exact ⟨fun h => hnot (Or.inl h), fun h => hnot (Or.inr h), hnul⟩
  · rw [hmin]
    unfold maximal_runs
    have h16 : 0 < MAX_ARGS := by decide
    constructor
    · intro h0
      have hlen : (runs_of (cstr cmd)).length = 0 := by
        rcases Nat.le_total MAX_ARGS (runs_of (cstr cmd)).length with h | h
        · rw [Nat.min_eq_left h] at h0; omega
        · rw [Nat.min_eq_right h] at h0; exact h0
      have hall := (runs_of_eq_nil_iff _).1 (List.length_eq_zero.1 hlen)
      intro c hc
      exact (is_blank_iff c).1 (hall c hc)
    · intro hall
      have hnil : runs_of (cstr cmd) = [] :=
        (runs_of_eq_nil_iff _).2 (fun c hc => (is_blank_iff c).2 (hall c hc))
      rw [hnil]
      simp

set_option maxRecDepth 100000 in
/-- Witness of `parse_command_tokens`: the line "  ls  -l<TAB>foo " gives the
three arguments "ls", "-l", "foo"; a line of 19 words gives `argc = 16`. -/
theorem parse_command_tokens_witness :
    (parse_command ls_line).1 = 3 ∧
    parsed_args ls_line = [[108, 115], [45, 108], [102, 111, 111]] ∧
    (parse_command long_line).1 = 16 ∧
    (maximal_runs long_line).length = 19 :=
  ⟨by decide,
    (parse_command_tokens ls_line).2.2.2.1.trans (by decide),
    by decide, by decide⟩

end MyOS
